import Mathlib

/-!
Verification development for the forge-e2e-gnumeric test harness
(`src/types.rs`, `src/runner.rs`).

Modelling conventions:
* Rust strings are modelled as `List Char` (abbreviated `Str`); string
  literals appear as `"...".toList`.
* Rust `f64` values are modelled as exact rationals `ℚ`.  The harness only
  compares, subtracts and parses decimal literals; at every concrete input
  used below these `f64` operations are exact, so the rational model agrees
  with the machine semantics there.  `f64::EPSILON` is `2⁻⁵²`.
* External effects (temporary directories, file writes, the forge subprocess,
  the ssconvert oracle) are modelled as explicit environment records whose
  fields hold the outcome the external world returned; the runner functions
  consume them exactly where the source performs the corresponding call.
* `parseDec?` models the plain-decimal subset of Rust's `f64` grammar
  (optional sign, digits, optional fraction); exponents, `inf` and `NaN` do
  not occur in the oracle outputs the claims are about.
-/

namespace ForgeE2E

abbrev Str := List Char

/-- Whitespace recognised by `str::trim` (ASCII subset actually produced by
the csv pipeline). -/
def isWs (c : Char) : Bool := c = ' ' || c = '\t' || c = '\n' || c = '\r'

/-- Rust `str::trim`: drop whitespace from both ends. -/
def trimStr (s : Str) : Str := ((s.dropWhile isWs).reverse.dropWhile isWs).reverse

/-- Rust `str::trim_matches('"')`: drop double quotes from both ends. -/
def trimQuotes (s : Str) : Str :=
  ((s.dropWhile (· = '"')).reverse.dropWhile (· = '"')).reverse

/-- One csv cell as produced by `s.trim_matches('"').trim()`. -/
def cleanCell (s : Str) : Str := trimStr (trimQuotes s)

/-- Rust `str::split(sep)`: split on a separator character.  `splitOnChar c ""`
is `[""]`, matching Rust. -/
def splitOnChar (sep : Char) : Str → List Str
  | [] => [[]]
  | c :: cs =>
    match splitOnChar sep cs with
    | [] => [[]]
    | r :: rs => if c = sep then [] :: r :: rs else (c :: r) :: rs

/-- The cells of one csv line:
`line.split(',').map(|s| s.trim_matches('"').trim())`. -/
def splitCells (line : Str) : List Str := (splitOnChar ',' line).map cleanCell

/-- Rust `str::strip_prefix`: remove `pre` from the front of `s` if present. -/
def dropPrefixQ : Str → Str → Option Str
  | [], s => some s
  | _ :: _, [] => none
  | p :: ps, c :: cs => if c = p then dropPrefixQ ps cs else none

/-- Numeric value of a big-endian digit string (helper for the parsers). -/
def digitsVal (cs : Str) : ℕ := cs.foldl (fun a c => a * 10 + (c.toNat - 48)) 0

/-- All characters are ASCII digits. -/
def allDigits (cs : Str) : Bool := cs.all Char.isDigit

/-- Rust `usize::from_str`: optional leading `+`, then one or more digits. -/
def parseUsize? (s : Str) : Option ℕ :=
  let t : Str := match s with
    | '+' :: r => r
    | _ => s
  if t ≠ [] ∧ allDigits t then some (digitsVal t) else none

/-- Unsigned part of `f64::from_str` restricted to plain decimals:
`digits`, `digits.digits`, `digits.` or `.digits`. -/
def parseUnsigned? (s : Str) : Option ℚ :=
  match splitOnChar '.' s with
  | [ip] => if ip ≠ [] ∧ allDigits ip then some (digitsVal ip : ℚ) else none
  | [ip, fp] =>
    if (ip ≠ [] ∨ fp ≠ []) ∧ allDigits ip ∧ allDigits fp then
      some ((digitsVal ip : ℚ) + (digitsVal fp : ℚ) / 10 ^ fp.length)
    else none
  | _ => none

/-- Rust `f64::from_str` on plain decimals: optional sign then `parseUnsigned?`. -/
def parseDec? (s : Str) : Option ℚ :=
  match s with
  | '-' :: r => (parseUnsigned? r).map (fun q => -q)
  | '+' :: r => parseUnsigned? r
  | _ => parseUnsigned? s

/-! ## Data model (`src/types.rs`) -/

/-- Model of `TableColumn`: a table column (array of values or a formula). -/
inductive TableColumn where
  | Numbers (vals : List ℚ)
  | Strings (vals : List Str)
  | Formula (f : Str)
  deriving DecidableEq

/-- Model of `Scalar`: one scalar definition with optional formula and expectation. -/
structure Scalar where
  value : Option ℚ
  formula : Option Str
  expected : Option ℚ
  skip : Option Str
  deriving DecidableEq

/-- Model of `Section`: either a group of scalars or a table of columns.  The Rust
`HashMap`s are modelled as association lists (each key occurs once). -/
inductive Sect where
  | ScalarGroup (entries : List (Str × Scalar))
  | Table (cols : List (Str × TableColumn))
  deriving DecidableEq

/-- Model of `TestSpec`: a parsed specification document. -/
structure TestSpec where
  forge_version : Str
  sections : List (Str × Sect)
  deriving DecidableEq

/-- Model of `TestCase`: one runnable test extracted from a spec. -/
structure TestCase where
  name : Str
  formula : Str
  expected : ℚ
  source_file : Option Str
  forge_version : Str
  deriving DecidableEq

/-- Model of `SkipCase`: one skipped test. -/
structure SkipCase where
  name : Str
  reason : Str
  deriving DecidableEq

/-- Model of `TestResult`: outcome of one case. -/
inductive TestResult where
  | Pass (name formula : Str) (expected actual : ℚ)
  | Fail (name formula : Str) (expected : ℚ) (actual : Option ℚ) (error : Option Str)
  | Skip (name reason : Str)
  deriving DecidableEq

/-- Model of `TestResult::name`. -/
def TestResult.rname : TestResult → Str
  | .Pass n _ _ _ => n
  | .Fail n _ _ _ _ => n
  | .Skip n _ => n

/-- Holds on `Pass` and `Fail` (the per-test outcomes). -/
def TestResult.isRunOutcome : TestResult → Bool
  | .Pass _ _ _ _ => true
  | .Fail _ _ _ _ _ => true
  | .Skip _ _ => false

/-- Reserved-name test shared by the extractors:
`section_name.starts_with('_') || section_name == "scenarios"`. -/
def isReservedName (s : Str) : Bool :=
  (s.head? = some '_') || s = "scenarios".toList

/-- Model of `extract_test_cases` (`src/types.rs:130`): every non-reserved
scalar-group entry with no skip reason and both a formula and an expected
value yields one `TestCase` named `section.entry`. -/
def extract_test_cases (spec : TestSpec) (source_file : Option Str) : List TestCase :=
  spec.sections.flatMap fun sec =>
    if isReservedName sec.1 then []
    else
      match sec.2 with
      | .ScalarGroup scalars =>
        scalars.filterMap fun entry =>
          if entry.2.skip.isSome then none
          else
            match entry.2.formula, entry.2.expected with
            | some formula, some expected =>
              some { name := sec.1 ++ '.' :: entry.1, formula := formula,
                     expected := expected, source_file := source_file,
                     forge_version := spec.forge_version }
            | _, _ => none
      | .Table _ => []

/-- Model of `extract_skip_cases` (`src/types.rs:199`). -/
def extract_skip_cases (spec : TestSpec) : List SkipCase :=
  spec.sections.flatMap fun sec =>
    if isReservedName sec.1 then []
    else
      match sec.2 with
      | .ScalarGroup scalars =>
        scalars.filterMap fun entry =>
          match entry.2.skip with
          | some reason => some { name := sec.1 ++ '.' :: entry.1, reason := reason }
          | none => none
      | .Table _ => []

/-! ## Decimal rendering (model of `f64::to_string` on decimal rationals) -/

/-- ASCII character of one decimal digit. -/
def digitChar (d : ℕ) : Char :=
  match d with
  | 0 => '0' | 1 => '1' | 2 => '2' | 3 => '3' | 4 => '4'
  | 5 => '5' | 6 => '6' | 7 => '7' | 8 => '8' | 9 => '9'
  | _ => '0'

/-- Little-endian decimal digits of a natural number (empty for `0`). -/
def digitsLE : ℕ → List ℕ
  | 0 => []
  | n + 1 => ((n + 1) % 10) :: digitsLE ((n + 1) / 10)
  decreasing_by exact Nat.div_lt_self (Nat.succ_pos n) (by norm_num)

/-- Decimal string of a natural number. -/
def natStr (n : ℕ) : Str :=
  if n = 0 then ['0'] else ((digitsLE n).map digitChar).reverse

/-- Pad a digit string with leading zeros up to width `k`. -/
def padZeros (k : ℕ) (s : Str) : Str := List.replicate (k - s.length) '0' ++ s

/-- Number of fractional digits used for a denominator: the least `k` with
`den ∣ 10 ^ k` (searched up to `den`, which always suffices for
decimal-friendly denominators). -/
def fracDigitsCount (den : ℕ) : ℕ :=
  match (List.range (den + 1)).find? (fun k => den ∣ 10 ^ k) with
  | some k => k
  | none => 0

/-- A rational with a finite decimal expansion (every `f64` value is one). -/
def DecFriendly (q : ℚ) : Prop := q.den ∣ 10 ^ q.den

instance (q : ℚ) : Decidable (DecFriendly q) := by unfold DecFriendly; infer_instance

/-- Decimal string of a rational, modelling Rust's `f64` `Display` on values
with finite decimal expansion: optional minus sign, integer digits, and the
fractional digits when the value is not an integer. -/
def ratStr (q : ℚ) : Str :=
  let sgn : Str := if q < 0 then ['-'] else []
  let a : ℚ := |q|
  let i : ℕ := a.floor.toNat
  let fr : ℚ := a - (i : ℚ)
  if fr = 0 then sgn ++ natStr i
  else
    let k := fracDigitsCount a.den
    let m : ℕ := (fr * 10 ^ k).num.toNat
    sgn ++ natStr i ++ '.' :: padZeros k (natStr m)

/-- Rust `Vec::join(", ")`. -/
def joinCommaSpace : List Str → Str
  | [] => []
  | [s] => s
  | s :: rest => s ++ ',' :: ' ' :: joinCommaSpace rest

/-- Rendering of one numeric column's cell: `[{nums_str.join(", ")}]`. -/
def renderNumbersCell (nums : List ℚ) : Str :=
  '[' :: joinCommaSpace (nums.map ratStr) ++ [']']

/-- Rendering of one string column's cell: `[{quoted.join(", ")}]`. -/
def renderStringsCell (strs : List Str) : Str :=
  '[' :: joinCommaSpace (strs.map (fun s => '"' :: s ++ ['"'])) ++ [']']

/-- Rendering of one column line: `  {col_name}: {cell}\n`. -/
def renderColumn (colName : Str) (col : TableColumn) : Str :=
  ' ' :: ' ' :: colName ++ ':' :: ' ' ::
    (match col with
     | .Numbers nums => renderNumbersCell nums
     | .Strings strs => renderStringsCell strs
     | .Formula f => '"' :: f ++ ['"']) ++ ['\n']

/-- Rendering of one table section: `{section_name}:\n` then its columns. -/
def renderTableSection (sectionName : Str) (cols : List (Str × TableColumn)) : Str :=
  sectionName ++ ':' :: '\n' :: cols.flatMap fun col => renderColumn col.1 col.2

/-- Per-section body of `extract_table_data_yaml`: table sections whose name
does not start with `_` and is neither `scenarios` nor `assumptions` render
their block; all other sections render nothing. -/
def tableSectionFragment (sec : Str × Sect) : Str :=
  if isReservedName sec.1 || sec.1 = "assumptions".toList then []
  else
    match sec.2 with
    | .Table columns => renderTableSection sec.1 columns
    | .ScalarGroup _ => []

/-- Model of `extract_table_data_yaml` (`src/types.rs:164`): re-serializes
every table section whose name does not start with `_` and is neither
`scenarios` nor `assumptions`. -/
def extract_table_data_yaml (spec : TestSpec) : Str :=
  spec.sections.flatMap tableSectionFragment

/-- Parsing of the comma-separated items of a rendered list: trim each item
and parse it as a decimal; all items must parse. -/
def parseCells : List Str → Option (List ℚ)
  | [] => some []
  | c :: cs =>
    match parseDec? (trimStr c) with
    | some v =>
      match parseCells cs with
      | some vs => some (v :: vs)
      | none => none
    | none => none

/-- Parser for a rendered bracketed numeric list, modelled from the spec's
declarative format (the source re-parses via the external YAML library):
strip the brackets, split on commas, trim each item, parse each as a
decimal. -/
def parseNumList? (s : Str) : Option (List ℚ) :=
  match s with
  | '[' :: rest =>
    if rest ≠ [] ∧ rest.getLast? = some ']' then
      let inner := rest.dropLast
      if inner = [] then some []
      else parseCells (splitOnChar ',' inner)
    else none
  | _ => none

/-! ## Result extraction and the test runner (`src/runner.rs`) -/

/-- Value of `f64::EPSILON`, the machine epsilon `2⁻⁵²`. -/
def epsF64 : ℚ := 1 / 2 ^ 52

/-- Absolute tolerance of the fallback cell heuristic, `0.0001`. -/
def fallbackTol : ℚ := 1 / 10000

/-- Scan of one csv row's cells (`src/runner.rs:530`): at each cell, first
the label check (`"result"` or `"test_result"` followed by a cell that
parses as a number), then the fallback check (the cell itself parses as a
number within `0.0001` of the expected value); the first acceptance wins.
The `replace(',', "")` of the source is a no-op here because cells come
from splitting the line on `','`. -/
def scanCells (expected : ℚ) : List Str → Option ℚ
  | [] => none
  | cell :: rest =>
    match
      (if cell = "result".toList ∨ cell = "test_result".toList then
        rest.head?.bind parseDec?
      else none) with
    | some value => some value
    | none =>
      match parseDec? cell with
      | some value =>
        if |value - expected| < fallbackTol then some value
        else scanCells expected rest
      | none => scanCells expected rest

/-- Model of `find_result_in_csv` (`src/runner.rs:519`); the sheet is given
as its list of lines.  I/O read errors are outside the model. -/
def find_result_in_csv (lines : List Str) (expected : ℚ) : Except Str ℚ :=
  match lines with
  | [] => .error "Could not find result in CSV output".toList
  | line :: rest =>
    match scanCells expected (splitCells line) with
    | some value => .ok value
    | none => find_result_in_csv rest expected

/-- Outcome of spawning the forge subprocess: whether the exit status was
success, and the captured standard-error text. -/
structure ForgeOut where
  success : Bool
  stderr : Str
  deriving DecidableEq

/-- External-world outcomes consumed by one `run_test` call, in the order
the source performs them. -/
structure SingleEnv where
  tempdir : Except Str Unit
  writeYaml : Except Str Unit
  forgeSpawn : Except Str ForgeOut
  csvSheets : Except Str (List (List Str))

/-- Shorthand for the `Fail { actual: None, error: Some msg }` results. -/
def infraFail (tc : TestCase) (msg : Str) : TestResult :=
  .Fail tc.name tc.formula tc.expected none (some msg)

/-- Search of all exported sheets (`src/runner.rs:490`): the first sheet on
which `find_result_in_csv` succeeds is judged with
`(actual - expected).abs() < f64::EPSILON`. -/
def judgeSheets (tc : TestCase) : List (List Str) → TestResult
  | [] => infraFail tc "Could not find result in any CSV sheet".toList
  | sheet :: rest =>
    match find_result_in_csv sheet tc.expected with
    | .ok actual =>
      if |actual - tc.expected| < epsF64 then
        .Pass tc.name tc.formula tc.expected actual
      else
        .Fail tc.name tc.formula tc.expected (some actual) none
    | .error _ => judgeSheets tc rest

/-- Model of `run_test` (`src/runner.rs:386`).  The yaml synthesis (table
data plus the `test_result` scalar) only feeds the external engines, so it
does not appear in the result; each external step failing short-circuits to
`Fail { actual: None }` with the source's message. -/
def run_test (tc : TestCase) (env : SingleEnv) : TestResult :=
  match env.tempdir with
  | .error e => infraFail tc ("Failed to create temp dir: ".toList ++ e)
  | .ok _ =>
    match env.writeYaml with
    | .error e => infraFail tc ("Failed to write YAML: ".toList ++ e)
    | .ok _ =>
      match env.forgeSpawn with
      | .error e => infraFail tc ("Failed to run forge: ".toList ++ e)
      | .ok out =>
        if ¬ out.success then
          infraFail tc ("forge export failed: ".toList ++ out.stderr)
        else
          match env.csvSheets with
          | .error e => infraFail tc ("CSV conversion failed: ".toList ++ e)
          | .ok sheets => judgeSheets tc sheets

/-- Qualification of one batch csv line (`src/runner.rs:363`): at least two
cells, the first cell stripped of `assumptions.test_` or `test_` parses as
an index below `count`, and the second cell parses as a number.  Returns the
index and value. -/
def batchLineKey (count : ℕ) (line : Str) : Option (ℕ × ℚ) :=
  match splitCells line with
  | c0 :: c1 :: _ =>
    match (dropPrefixQ "assumptions.test_".toList c0).orElse
        (fun _ => dropPrefixQ "test_".toList c0) with
    | some idxStr =>
      match parseUsize? idxStr with
      | some idx =>
        if idx < count then
          match parseDec? c1 with
          | some value => some (idx, value)
          | none => none
        else none
      | none => none
    | none => none
  | _ => none

/-- Processing of one line of the batch csv: a qualifying line overwrites
its index's slot with `Ok(value)`. -/
def processBatchLine (count : ℕ) (results : List (Except Str ℚ)) (line : Str) :
    List (Except Str ℚ) :=
  match batchLineKey count line with
  | some kv => results.set kv.1 (.ok kv.2)
  | none => results

/-- Model of `parse_batch_csv` (`src/runner.rs:341`); the csv file is given
as its list of lines.  Every slot starts as the missing-result error and
qualifying lines overwrite their slot in file order. -/
def parse_batch_csv (lines : List Str) (count : ℕ) : List (Except Str ℚ) :=
  lines.foldl (processBatchLine count)
    (List.replicate count (.error "Missing result in CSV output".toList))

/-- External-world outcomes consumed by one `run_batch` call. -/
structure BatchEnv where
  tempdir : Except Str Unit
  writeYaml : Except Str Unit
  forgeSpawn : Except Str ForgeOut
  csvLines : Except Str (List Str)

/-- Skip pass-through used by all three strategies. -/
def mkSkipResult (sc : SkipCase) : TestResult := .Skip sc.name sc.reason

/-- Judgment of one batch slot (`src/runner.rs:297`): `Some(Ok)` is compared
with `(actual - expected).abs() < f64::EPSILON`, `Some(Err)` and `None`
become failures with no actual value. -/
def judgeBatchSlot (tc : TestCase) (slot : Option (Except Str ℚ)) : TestResult :=
  match slot with
  | some (.ok actual) =>
    if |actual - tc.expected| < epsF64 then
      .Pass tc.name tc.formula tc.expected actual
    else
      .Fail tc.name tc.formula tc.expected (some actual) none
  | some (.error e) => .Fail tc.name tc.formula tc.expected none (some e)
  | none => infraFail tc "Missing result in CSV".toList

/-- Model of `run_batch` (`src/runner.rs:186`): skip results first; an empty
test list returns early; each shared-infrastructure failure appends one
identical failure per test case; otherwise the single csv is parsed and each
case judged from its slot. -/
def run_batch (skips : List SkipCase) (tests : List TestCase) (env : BatchEnv) :
    List TestResult :=
  let results := skips.map mkSkipResult
  if tests = [] then results
  else
    match env.tempdir with
    | .error e =>
      results ++ tests.map fun tc => infraFail tc ("Failed to create temp dir: ".toList ++ e)
    | .ok _ =>
      match env.writeYaml with
      | .error e =>
        results ++ tests.map fun tc => infraFail tc ("Failed to write YAML: ".toList ++ e)
      | .ok _ =>
        match env.forgeSpawn with
        | .error e =>
          results ++ tests.map fun tc => infraFail tc ("Failed to run forge: ".toList ++ e)
        | .ok out =>
          if ¬ out.success then
            results ++ tests.map fun tc =>
              infraFail tc ("forge export failed: ".toList ++ out.stderr)
          else
            match env.csvLines with
            | .error e =>
              results ++ tests.map fun tc =>
                infraFail tc ("CSV conversion failed: ".toList ++ e)
            | .ok lines =>
              let csv_results := parse_batch_csv lines tests.length
              results ++ (tests.mapIdx fun i tc => judgeBatchSlot tc csv_results[i]?)

/-- Model of `run_all` (`src/runner.rs:147`): skip results chained with one
`run_test` per case.  `envs i` is the external world seen by the `i`-th
`run_test` invocation. -/
def run_all (skips : List SkipCase) (tests : List TestCase) (envs : ℕ → SingleEnv) :
    List TestResult :=
  skips.map mkSkipResult ++ tests.mapIdx fun i tc => run_test tc (envs i)

/-- Model of `run_all_streaming` (`src/runner.rs:159`): the same results are
accumulated one at a time by pushing onto a growing list (the observer
callback only reads each result, so it is not part of the returned value). -/
def run_all_streaming (skips : List SkipCase) (tests : List TestCase)
    (envs : ℕ → SingleEnv) : List TestResult :=
  let afterSkips := skips.foldl (fun acc sc => acc ++ [mkSkipResult sc]) []
  (tests.foldl
    (fun (st : List TestResult × ℕ) tc => (st.1 ++ [run_test tc (envs st.2)], st.2 + 1))
    (afterSkips, 0)).1

/-- A scalar entry that produces a runnable test case: no skip reason, and
both a formula and an expected value. -/
def qualifiesRun (sc : Scalar) : Bool :=
  sc.skip.isNone && sc.formula.isSome && sc.expected.isSome

/-- Number of qualifying entries across the non-reserved scalar-group
sections of a spec. -/
def countRunnable (spec : TestSpec) : ℕ :=
  (spec.sections.map fun sec =>
    if isReservedName sec.1 then 0
    else
      match sec.2 with
      | .ScalarGroup scalars => (scalars.filter fun entry => qualifiesRun entry.2).length
      | .Table _ => 0).sum

/-- The per-entry extraction function of `extract_test_cases`. -/
def entryCase (spec : TestSpec) (source_file : Option Str) (sectionName : Str)
    (entry : Str × Scalar) : Option TestCase :=
  if entry.2.skip.isSome then none
  else
    match entry.2.formula, entry.2.expected with
    | some formula, some expected =>
      some { name := sectionName ++ '.' :: entry.1, formula := formula,
             expected := expected, source_file := source_file,
             forge_version := spec.forge_version }
    | _, _ => none

/-- First-sheet extraction of `run_test`'s search loop: the value recovered
from the first sheet on which `find_result_in_csv` succeeds. -/
def extractedValue (sheets : List (List Str)) (expected : ℚ) : Option ℚ :=
  match sheets with
  | [] => none
  | sheet :: rest =>
    match find_result_in_csv sheet expected with
    | .ok v => some v
    | .error _ => extractedValue rest expected

/-- Label acceptance at position `j` of a row: the cell at `j` is `result`
or `test_result` and the cell at `j+1` parses as a number. -/
def labelHitAt (cells : List Str) (j : ℕ) : Option ℚ :=
  (cells[j]?).bind fun cell =>
    if cell = "result".toList ∨ cell = "test_result".toList then
      (cells[j+1]?).bind parseDec?
    else none

/-- Fallback acceptance at position `j` of a row: the cell at `j` parses as
a number within `0.0001` of the expected value. -/
def fallbackHitAt (expected : ℚ) (cells : List Str) (j : ℕ) : Option ℚ :=
  (cells[j]?).bind fun cell =>
    (parseDec? cell).bind fun v =>
      if |v - expected| < fallbackTol then some v else none

/-- Value a batch csv line contributes to index `i`, if any. -/
def batchLineHit (count i : ℕ) (line : Str) : Option ℚ :=
  match batchLineKey count line with
  | some kv => if kv.1 = i then some kv.2 else none
  | none => none

/-- Value of the last line contributing to index `i`, scanning in file
order. -/
def lastHit (count i : ℕ) (lines : List Str) : Option ℚ :=
  lines.foldl
    (fun acc line =>
      match batchLineHit count i line with
      | some v => some v
      | none => acc)
    none

/-- Slot contents determined by an optional last contribution. -/
def slotOfHit (h : Option ℚ) : Except Str ℚ :=
  match h with
  | some v => .ok v
  | none => .error "Missing result in CSV output".toList

/-- Completeness of a result list for the loaded cases: the skip results
come first, one `Skip` per `SkipCase` carrying its reason, followed by
exactly one `Pass` or `Fail` per `TestCase` (position `j` of the tail
reporting the name of test case `j`). -/
def completeResults (skips : List SkipCase) (tests : List TestCase)
    (r : List TestResult) : Prop :=
  ∃ tail, r = skips.map mkSkipResult ++ tail ∧ tail.length = tests.length ∧
    ∀ (j : ℕ) (res : TestResult) (tc : TestCase),
      tail[j]? = some res → tests[j]? = some tc →
      res.isRunOutcome = true ∧ res.rname = tc.name

/-! ## Helper lemmas -/

theorem length_filterMap_eq_length_filter {α β : Type} (f : α → Option β) (l : List α) :
    (l.filterMap f).length = (l.filter (fun a => (f a).isSome)).length := by
  induction l with
  | nil => rfl
  | cons a l ih =>
    rw [List.filterMap_cons, List.filter_cons]
    cases h : f a with
    | none => simpa [h] using ih
    | some b => simpa [h] using ih

theorem extract_test_cases_eq_flatMap (spec : TestSpec) (src : Option Str) :
    extract_test_cases spec src = spec.sections.flatMap fun sec =>
      if isReservedName sec.1 then []
      else
        match sec.2 with
        | .ScalarGroup scalars => scalars.filterMap (entryCase spec src sec.1)
        | .Table _ => [] := rfl

theorem entryCase_isSome_iff (spec : TestSpec) (src : Option Str) (s : Str)
    (entry : Str × Scalar) :
    (entryCase spec src s entry).isSome = qualifiesRun entry.2 := by
  rcases entry with ⟨n, sc⟩
  rcases sc with ⟨v, fo, ex, sk⟩
  cases sk <;> cases fo <;> cases ex <;> simp [entryCase, qualifiesRun]

theorem extract_test_cases_sound (spec : TestSpec) (src : Option Str)
    (c : TestCase) (hc : c ∈ extract_test_cases spec src) :
    ∃ s scalars, (s, Sect.ScalarGroup scalars) ∈ spec.sections ∧
      isReservedName s = false ∧
      ∃ n sc, (n, sc) ∈ scalars ∧ sc.skip = none ∧
        sc.formula = some c.formula ∧ sc.expected = some c.expected ∧
        c.name = s ++ '.' :: n ∧ c.source_file = src ∧
        c.forge_version = spec.forge_version := by
  rw [extract_test_cases_eq_flatMap] at hc
  rw [List.mem_flatMap] at hc
  obtain ⟨sec, hsec, hmem⟩ := hc
  rcases sec with ⟨s, sect⟩
  by_cases hres : isReservedName s
  · simp [hres] at hmem
  · cases sect with
    | Table cols => simp [hres] at hmem
    | ScalarGroup scalars =>
      simp only [hres, if_neg, Bool.false_eq_true, if_false] at hmem
      rw [List.mem_filterMap] at hmem
      obtain ⟨entry, hentry, heq⟩ := hmem
      rcases entry with ⟨n, sc⟩
      refine ⟨s, scalars, hsec, by simpa using hres, n, sc, hentry, ?_⟩
      rcases sc with ⟨v, fo, ex, sk⟩
      cases sk with
      | some r => simp [entryCase] at heq
      | none =>
        cases fo with
        | none => simp [entryCase] at heq
        | some f =>
          cases ex with
          | none => simp [entryCase] at heq
          | some e =>
            simp only [entryCase, Option.isSome_none, Bool.false_eq_true, if_false,
              Option.some.injEq] at heq
            subst heq
            simp

theorem extract_test_cases_complete (spec : TestSpec) (src : Option Str)
    (s : Str) (scalars : List (Str × Scalar)) (n : Str) (sc : Scalar)
    (f : Str) (e : ℚ)
    (hsec : (s, Sect.ScalarGroup scalars) ∈ spec.sections)
    (hres : isReservedName s = false)
    (hentry : (n, sc) ∈ scalars)
    (hskip : sc.skip = none) (hf : sc.formula = some f) (he : sc.expected = some e) :
    ({ name := s ++ '.' :: n, formula := f, expected := e, source_file := src,
       forge_version := spec.forge_version } : TestCase) ∈ extract_test_cases spec src := by
  rw [extract_test_cases_eq_flatMap, List.mem_flatMap]
  refine ⟨(s, Sect.ScalarGroup scalars), hsec, ?_⟩
  simp only [hres, Bool.false_eq_true, if_false]
  rw [List.mem_filterMap]
  exact ⟨(n, sc), hentry, by simp [entryCase, hskip, hf, he]⟩

theorem extract_test_cases_length (spec : TestSpec) (src : Option Str) :
    (extract_test_cases spec src).length = countRunnable spec := by
  rw [extract_test_cases_eq_flatMap, List.length_flatMap, countRunnable]
  apply congrArg List.sum
  apply List.map_congr_left
  intro sec _
  simp only [Function.comp_apply]
  rcases sec with ⟨s, sect⟩
  by_cases hres : isReservedName s
  · simp [hres]
  · cases sect with
    | Table cols => simp [hres]
    | ScalarGroup scalars =>
      simp only [hres, Bool.false_eq_true, if_false]
      rw [length_filterMap_eq_length_filter]
      congr 1
      apply List.filter_congr
      intro entry _
      exact entryCase_isSome_iff spec src s entry

theorem extract_skip_cases_mem (spec : TestSpec) (s : Str)
    (scalars : List (Str × Scalar)) (n : Str) (sc : Scalar) (r : Str)
    (hsec : (s, Sect.ScalarGroup scalars) ∈ spec.sections)
    (hres : isReservedName s = false)
    (hentry : (n, sc) ∈ scalars)
    (hskip : sc.skip = some r) :
    ({ name := s ++ '.' :: n, reason := r } : SkipCase) ∈ extract_skip_cases spec := by
  rw [extract_skip_cases, List.mem_flatMap]
  refine ⟨(s, Sect.ScalarGroup scalars), hsec, ?_⟩
  simp only [hres, Bool.false_eq_true, if_false]
  rw [List.mem_filterMap]
  exact ⟨(n, sc), hentry, by simp [hskip]⟩

/-! ## Claim C3 -/

/-- C3: for every specification document and every scalar-group entry in a
non-reserved section whose `skip` field is set, extraction places that entry
in the skip list (as a `SkipCase` carrying its reason), and the runnable
list never contains a case contributed by a skip-marked entry: every case in
`extract_test_cases` originates from an entry whose `skip` field is unset.
The entry's `formula` and `expected` fields are arbitrary. -/
theorem claim_C3_skip_entries_only_skipped (spec : TestSpec) (src : Option Str)
    (s : Str) (scalars : List (Str × Scalar)) (n : Str) (sc : Scalar) (r : Str)
    (hsec : (s, Sect.ScalarGroup scalars) ∈ spec.sections)
    (hres : isReservedName s = false)
    (hentry : (n, sc) ∈ scalars)
    (hskip : sc.skip = some r) :
    ({ name := s ++ '.' :: n, reason := r } : SkipCase) ∈ extract_skip_cases spec ∧
    ∀ c ∈ extract_test_cases spec src,
      ∃ s' scalars' n' sc', (s', Sect.ScalarGroup scalars') ∈ spec.sections ∧
        (n', sc') ∈ scalars' ∧ sc'.skip = none ∧ c.name = s' ++ '.' :: n' ∧
        sc'.formula = some c.formula ∧ sc'.expected = some c.expected := by
  constructor
  · exact extract_skip_cases_mem spec s scalars n sc r hsec hres hentry hskip
  · intro c hc
    obtain ⟨s', scalars', hsec', _, n', sc', hentry', hskip', hf', he', hname, _, _⟩ :=
      extract_test_cases_sound spec src c hc
    exact ⟨s', scalars', n', sc', hsec', hentry', hskip', hname, hf', he'⟩

theorem claim_C3_witness :
    ({ name := "assumptions".toList ++ '.' :: "test_x".toList,
       reason := "slow".toList } : SkipCase) ∈
      extract_skip_cases ⟨"1.0.0".toList,
        [("assumptions".toList, Sect.ScalarGroup
          [("test_x".toList, ⟨none, some "=1+1".toList, some 2, some "slow".toList⟩)])]⟩ ∧
    ∀ c ∈ extract_test_cases ⟨"1.0.0".toList,
        [("assumptions".toList, Sect.ScalarGroup
          [("test_x".toList, ⟨none, some "=1+1".toList, some 2, some "slow".toList⟩)])]⟩
        none,
      ∃ s' scalars' n' sc',
        (s', Sect.ScalarGroup scalars') ∈
          ([("assumptions".toList, Sect.ScalarGroup
            [("test_x".toList,
              (⟨none, some "=1+1".toList, some 2, some "slow".toList⟩ : Scalar))])] :
            List (Str × Sect)) ∧
        (n', sc') ∈ scalars' ∧ sc'.skip = none ∧ c.name = s' ++ '.' :: n' ∧
        sc'.formula = some c.formula ∧ sc'.expected = some c.expected :=
  claim_C3_skip_entries_only_skipped
    ⟨"1.0.0".toList,
      [("assumptions".toList, Sect.ScalarGroup
        [("test_x".toList, ⟨none, some "=1+1".toList, some 2, some "slow".toList⟩)])]⟩
    none "assumptions".toList
    [("test_x".toList, ⟨none, some "=1+1".toList, some 2, some "slow".toList⟩)]
    "test_x".toList ⟨none, some "=1+1".toList, some 2, some "slow".toList⟩
    "slow".toList (by decide) (by decide) (by decide) rfl

/-! ## Claim C4 -/

/-- C4: for every specification document and every scalar-group entry in a
non-reserved section with both a formula and an expected value and no skip
reason, `extract_test_cases` produces exactly one `TestCase` for the entry,
named `section.entry` and carrying the entry's formula and expected value.
Exactly-one is expressed as: (membership) the entry's case is in the list;
(count) the list has exactly one element per qualifying entry; (soundness)
every element of the list arises from a qualifying entry. -/
theorem claim_C4_qualifying_entry_one_case (spec : TestSpec) (src : Option Str)
    (s : Str) (scalars : List (Str × Scalar)) (n : Str) (sc : Scalar)
    (f : Str) (e : ℚ)
    (hsec : (s, Sect.ScalarGroup scalars) ∈ spec.sections)
    (hres : isReservedName s = false)
    (hentry : (n, sc) ∈ scalars)
    (hskip : sc.skip = none) (hf : sc.formula = some f) (he : sc.expected = some e) :
    ({ name := s ++ '.' :: n, formula := f, expected := e, source_file := src,
       forge_version := spec.forge_version } : TestCase) ∈ extract_test_cases spec src ∧
    (extract_test_cases spec src).length = countRunnable spec ∧
    ∀ c ∈ extract_test_cases spec src,
      ∃ s' scalars' n' sc', (s', Sect.ScalarGroup scalars') ∈ spec.sections ∧
        isReservedName s' = false ∧ (n', sc') ∈ scalars' ∧ qualifiesRun sc' = true ∧
        c.name = s' ++ '.' :: n' := by
  refine ⟨extract_test_cases_complete spec src s scalars n sc f e hsec hres hentry
    hskip hf he, extract_test_cases_length spec src, ?_⟩
  intro c hc
  obtain ⟨s', scalars', hsec', hres', n', sc', hentry', hskip', hf', he', hname, _, _⟩ :=
    extract_test_cases_sound spec src c hc
  refine ⟨s', scalars', n', sc', hsec', hres', hentry', ?_, hname⟩
  simp [qualifiesRun, hskip', hf', he']

theorem claim_C4_witness :
    ({ name := "assumptions".toList ++ '.' :: "test_abs".toList,
       formula := "=ABS(-42)".toList, expected := 42, source_file := none,
       forge_version := "1.0.0".toList } : TestCase) ∈
      extract_test_cases ⟨"1.0.0".toList,
        [("assumptions".toList, Sect.ScalarGroup
          [("test_abs".toList, ⟨none, some "=ABS(-42)".toList, some 42, none⟩)])]⟩ none ∧
    (extract_test_cases ⟨"1.0.0".toList,
        [("assumptions".toList, Sect.ScalarGroup
          [("test_abs".toList, ⟨none, some "=ABS(-42)".toList, some 42, none⟩)])]⟩
        none).length =
      countRunnable ⟨"1.0.0".toList,
        [("assumptions".toList, Sect.ScalarGroup
          [("test_abs".toList, ⟨none, some "=ABS(-42)".toList, some 42, none⟩)])]⟩ ∧
    ∀ c ∈ extract_test_cases ⟨"1.0.0".toList,
        [("assumptions".toList, Sect.ScalarGroup
          [("test_abs".toList, ⟨none, some "=ABS(-42)".toList, some 42, none⟩)])]⟩ none,
      ∃ s' scalars' n' sc',
        (s', Sect.ScalarGroup scalars') ∈
          ([("assumptions".toList, Sect.ScalarGroup
            [("test_abs".toList,
              (⟨none, some "=ABS(-42)".toList, some 42, none⟩ : Scalar))])] :
            List (Str × Sect)) ∧
        isReservedName s' = false ∧ (n', sc') ∈ scalars' ∧ qualifiesRun sc' = true ∧
        c.name = s' ++ '.' :: n' :=
  claim_C4_qualifying_entry_one_case
    ⟨"1.0.0".toList,
      [("assumptions".toList, Sect.ScalarGroup
        [("test_abs".toList, ⟨none, some "=ABS(-42)".toList, some 42, none⟩)])]⟩
    none "assumptions".toList
    [("test_abs".toList, ⟨none, some "=ABS(-42)".toList, some 42, none⟩)]
    "test_abs".toList ⟨none, some "=ABS(-42)".toList, some 42, none⟩
    "=ABS(-42)".toList 42 (by decide) (by decide) (by decide) rfl rfl rfl

/-! ## Claim C9 -/

/-- C9 counterexample: a `Table` section named `assumptions` has a name with
no reserved prefix and different from the reserved scenario keyword, yet
`extract_table_data_yaml` renders nothing for the document containing it, so
its columns appear in no decomposition of the output around its rendering.
The claim as stated (only reserved-prefix, scenario-keyword and scalar-group
sections are excluded) is therefore false. -/
theorem claim_C9_counterexample :
    extract_table_data_yaml ⟨"1.0.0".toList,
      [("assumptions".toList, Sect.Table [("values".toList, TableColumn.Numbers [1])])]⟩
      = [] ∧
    isReservedName "assumptions".toList = false ∧
    ¬ ∃ pre post,
      extract_table_data_yaml ⟨"1.0.0".toList,
        [("assumptions".toList, Sect.Table [("values".toList, TableColumn.Numbers [1])])]⟩
        = pre ++
          renderTableSection "assumptions".toList
            [("values".toList, TableColumn.Numbers [1])] ++ post := by
  refine ⟨rfl, rfl, ?_⟩
  rintro ⟨pre, post, h⟩
  have h0 : extract_table_data_yaml ⟨"1.0.0".toList,
      [("assumptions".toList, Sect.Table [("values".toList, TableColumn.Numbers [1])])]⟩
      = [] := rfl
  rw [h0] at h
  obtain ⟨h1, h2⟩ := List.append_eq_nil.mp h.symm
  obtain ⟨h3, h4⟩ := List.append_eq_nil.mp h1
  exact absurd h4 (by decide)

theorem extract_table_infix (spec : TestSpec) (s : Str)
    (cols : List (Str × TableColumn))
    (hsec : (s, Sect.Table cols) ∈ spec.sections)
    (hres : isReservedName s = false)
    (hassum : s ≠ "assumptions".toList) :
    ∃ pre post,
      extract_table_data_yaml spec = pre ++ renderTableSection s cols ++ post := by
  obtain ⟨l₁, l₂, hdecomp⟩ := List.append_of_mem hsec
  refine ⟨l₁.flatMap tableSectionFragment, l₂.flatMap tableSectionFragment, ?_⟩
  have hcond : (isReservedName s || s = "assumptions".toList) = false := by
    rw [hres]
    simpa using hassum
  have hmid : tableSectionFragment (s, Sect.Table cols) = renderTableSection s cols := by
    unfold tableSectionFragment
    rw [hcond]
    simp
  unfold extract_table_data_yaml
  rw [hdecomp, List.flatMap_append, List.flatMap_cons, hmid, List.append_assoc]

/-- C9 amended: `extract_table_data_yaml` re-serializes every `Table`
section except those whose name starts with the reserved prefix `_`, equals
the reserved scenario keyword `scenarios`, or equals `assumptions` (the
section that holds the tests); every other `Table` section's rendered block
appears in the output fragment. -/
theorem claim_C9_nonreserved_tables_rendered (spec : TestSpec) (s : Str)
    (cols : List (Str × TableColumn))
    (hsec : (s, Sect.Table cols) ∈ spec.sections)
    (hres : isReservedName s = false)
    (hassum : s ≠ "assumptions".toList) :
    ∃ pre post,
      extract_table_data_yaml spec = pre ++ renderTableSection s cols ++ post :=
  extract_table_infix spec s cols hsec hres hassum

theorem claim_C9_witness :
    ∃ pre post,
      extract_table_data_yaml ⟨"1.0.0".toList,
        [("agg_data".toList, Sect.Table [("values".toList, TableColumn.Numbers [10])])]⟩
        = pre ++
          renderTableSection "agg_data".toList
            [("values".toList, TableColumn.Numbers [10])] ++ post :=
  claim_C9_nonreserved_tables_rendered
    ⟨"1.0.0".toList,
      [("agg_data".toList, Sect.Table [("values".toList, TableColumn.Numbers [10])])]⟩
    "agg_data".toList [("values".toList, TableColumn.Numbers [10])]
    (by decide) (by decide) (by decide)

/-! ## Claim C1 -/

theorem judgeSheets_eq_extractedValue (tc : TestCase) (sheets : List (List Str)) :
    judgeSheets tc sheets =
      match extractedValue sheets tc.expected with
      | some v =>
        if |v - tc.expected| < epsF64 then
          .Pass tc.name tc.formula tc.expected v
        else
          .Fail tc.name tc.formula tc.expected (some v) none
      | none => infraFail tc "Could not find result in any CSV sheet".toList := by
  induction sheets with
  | nil => rfl
  | cons sheet rest ih =>
    rw [judgeSheets, extractedValue]
    cases find_result_in_csv sheet tc.expected with
    | ok v => rfl
    | error e => exact ih

/-- C1 counterexample: with expected value `0` and a sheet whose labelled
result cell holds `0.0000000000000000001` (a representable `f64`, parsed and
subtracted exactly), `run_test` returns `Pass` although the extracted value
differs from the expected value by the nonzero amount `10⁻¹⁹`; the claim
demands `Fail` with `actual = Some(extracted)` for any nonzero difference. -/
theorem parseUnsigned_two (s ip fp : Str) (hs : splitOnChar '.' s = [ip, fp])
    (h : (ip ≠ [] ∨ fp ≠ []) ∧ allDigits ip ∧ allDigits fp) :
    parseUnsigned? s =
      some ((digitsVal ip : ℚ) + (digitsVal fp : ℚ) / 10 ^ fp.length) := by
  unfold parseUnsigned?
  rw [hs]
  show (if (ip ≠ [] ∨ fp ≠ []) ∧ allDigits ip ∧ allDigits fp then
    some ((digitsVal ip : ℚ) + (digitsVal fp : ℚ) / 10 ^ fp.length) else none) = _
  rw [if_pos h]

theorem parseUnsigned_one (s ip : Str) (hs : splitOnChar '.' s = [ip])
    (h : ip ≠ [] ∧ allDigits ip) :
    parseUnsigned? s = some (digitsVal ip : ℚ) := by
  unfold parseUnsigned?
  rw [hs]
  show (if ip ≠ [] ∧ allDigits ip then some ((digitsVal ip : ℚ)) else none) = _
  rw [if_pos h]

theorem scanCells_label_first (e v : ℚ) (c0 c1 : Str) (rest : List Str)
    (h0 : c0 = "result".toList ∨ c0 = "test_result".toList)
    (h1 : parseDec? c1 = some v) :
    scanCells e (c0 :: c1 :: rest) = some v := by
  unfold scanCells
  rw [if_pos h0]
  simp [h1]

theorem judgeSheets_of_extracted (tc : TestCase) (sheets : List (List Str)) (v : ℚ)
    (hv : extractedValue sheets tc.expected = some v) :
    judgeSheets tc sheets =
      if |v - tc.expected| < epsF64 then
        .Pass tc.name tc.formula tc.expected v
      else
        .Fail tc.name tc.formula tc.expected (some v) none := by
  rw [judgeSheets_eq_extractedValue, hv]

theorem claim_C1_counterexample :
    run_test ⟨"t".toList, "=F()".toList, 0, none, "1.0.0".toList⟩
      ⟨.ok (), .ok (), .ok ⟨true, []⟩,
       .ok [["result,0.0000000000000000001".toList]]⟩
      = .Pass "t".toList "=F()".toList 0 (1 / 10 ^ 19) ∧
    (1 / 10 ^ 19 : ℚ) ≠ 0 := by
  have hparse : parseDec? "0.0000000000000000001".toList = some (1 / 10 ^ 19) := by
    have h0 : parseDec? "0.0000000000000000001".toList =
        parseUnsigned? "0.0000000000000000001".toList := rfl
    have h1 := parseUnsigned_two "0.0000000000000000001".toList "0".toList
      "0000000000000000001".toList (by decide) (by decide)
    rw [show digitsVal "0".toList = 0 from by decide,
        show digitsVal "0000000000000000001".toList = 1 from by decide,
        show ("0000000000000000001".toList).length = 19 from by decide] at h1
    rw [h0, h1]
    norm_num
  constructor
  · have hrow : scanCells 0 (splitCells "result,0.0000000000000000001".toList) =
        some (1 / 10 ^ 19) := by
      rw [show splitCells "result,0.0000000000000000001".toList =
        ["result".toList, "0.0000000000000000001".toList] from by decide]
      exact scanCells_label_first 0 (1 / 10 ^ 19) _ _ [] (Or.inl rfl) hparse
    have hext : extractedValue [["result,0.0000000000000000001".toList]]
        ((⟨"t".toList, "=F()".toList, 0, none, "1.0.0".toList⟩ : TestCase).expected)
        = some (1 / 10 ^ 19) := by
      unfold extractedValue find_result_in_csv
      rw [show ((⟨"t".toList, "=F()".toList, 0, none, "1.0.0".toList⟩ :
        TestCase).expected) = 0 from rfl, hrow]
    have hj := judgeSheets_of_extracted
      ⟨"t".toList, "=F()".toList, 0, none, "1.0.0".toList⟩
      [["result,0.0000000000000000001".toList]] (1 / 10 ^ 19) hext
    show judgeSheets _ _ = _
    rw [hj]
    rw [if_pos (by
      show |1 / 10 ^ 19 - (0 : ℚ)| < epsF64
      unfold epsF64
      rw [sub_zero, abs_of_pos (by positivity)]
      norm_num)]
  · norm_num

/-- C1 amended: once a value has been extracted, the Pass/Fail judgment
compares it to the expected value with absolute tolerance `f64::EPSILON`
(`2⁻⁵²`), not exact equality: the result is `Pass` iff the absolute
difference is strictly below `2⁻⁵²` (so equal values pass, and values
differing by at least `2⁻⁵²` fail with `actual = Some(extracted)`, but a
nonzero difference below `2⁻⁵²` also passes).  This holds in both individual
mode (`run_test`) and batch mode (`run_batch`). -/
theorem claim_C1_judgment_eps_tolerance :
    (∀ (tc : TestCase) (env : SingleEnv) (out : ForgeOut)
        (sheets : List (List Str)) (v : ℚ),
      env.tempdir = .ok () → env.writeYaml = .ok () →
      env.forgeSpawn = .ok out → out.success = true →
      env.csvSheets = .ok sheets →
      extractedValue sheets tc.expected = some v →
      run_test tc env =
        if |v - tc.expected| < epsF64 then
          .Pass tc.name tc.formula tc.expected v
        else
          .Fail tc.name tc.formula tc.expected (some v) none) ∧
    (∀ (skips : List SkipCase) (tests : List TestCase) (env : BatchEnv)
        (out : ForgeOut) (lines : List Str) (i : ℕ) (tc : TestCase) (v : ℚ),
      env.tempdir = .ok () → env.writeYaml = .ok () →
      env.forgeSpawn = .ok out → out.success = true →
      env.csvLines = .ok lines →
      tests[i]? = some tc →
      (parse_batch_csv lines tests.length)[i]? = some (.ok v) →
      (run_batch skips tests env)[skips.length + i]? =
        some (if |v - tc.expected| < epsF64 then
          .Pass tc.name tc.formula tc.expected v
        else
          .Fail tc.name tc.formula tc.expected (some v) none)) := by
  constructor
  · intro tc env out sheets v h1 h2 h3 h4 h5 hv
    obtain ⟨t, w, fo, cs⟩ := env
    obtain ⟨su, sterr⟩ := out
    simp only at h1 h2 h3 h5
    subst h1 h2 h3 h5
    simp only [ForgeOut.success] at h4
    subst h4
    have hrt : run_test tc ⟨.ok (), .ok (), .ok ⟨true, sterr⟩, .ok sheets⟩ =
        judgeSheets tc sheets := rfl
    rw [hrt, judgeSheets_eq_extractedValue, hv]
  · intro skips tests env out lines i tc v h1 h2 h3 h4 h5 htc hslot
    have htests : tests ≠ [] := by
      rintro rfl
      simp at htc
    obtain ⟨t, w, fo, cl⟩ := env
    obtain ⟨su, sterr⟩ := out
    simp only at h1 h2 h3 h5
    subst h1 h2 h3 h5
    simp only [ForgeOut.success] at h4
    subst h4
    have hrb : run_batch skips tests ⟨.ok (), .ok (), .ok ⟨true, sterr⟩, .ok lines⟩ =
        if tests = [] then skips.map mkSkipResult
        else skips.map mkSkipResult ++
          (tests.mapIdx fun j tcj =>
            judgeBatchSlot tcj (parse_batch_csv lines tests.length)[j]?) := rfl
    rw [hrb, if_neg htests, List.getElem?_append_right (by simp)]
    have hidx : skips.length + i - (skips.map mkSkipResult).length = i := by simp
    rw [hidx, List.getElem?_mapIdx, htc]
    show some (judgeBatchSlot tc (parse_batch_csv lines tests.length)[i]?) = _
    rw [hslot]
    rfl

theorem claim_C1_witness :
    run_test ⟨"t".toList, "f".toList, 5, none, "v".toList⟩
      ⟨.ok (), .ok (), .ok ⟨true, []⟩, .ok [["result,5".toList]]⟩
      = (if |(5 : ℚ) - (5 : ℚ)| < epsF64 then
          TestResult.Pass "t".toList "f".toList 5 5
        else
          TestResult.Fail "t".toList "f".toList 5 (some 5) none) ∧
    (run_batch [] [⟨"t".toList, "f".toList, 5, none, "v".toList⟩]
      ⟨.ok (), .ok (), .ok ⟨true, []⟩, .ok ["test_0,5".toList]⟩)[0]?
      = some (if |(5 : ℚ) - (5 : ℚ)| < epsF64 then
          TestResult.Pass "t".toList "f".toList 5 5
        else
          TestResult.Fail "t".toList "f".toList 5 (some 5) none) := by
  have hparse5 : parseDec? "5".toList = some 5 := by
    have h0 : parseDec? "5".toList = parseUnsigned? "5".toList := rfl
    rw [h0, parseUnsigned_one "5".toList "5".toList (by decide) (by decide),
      show digitsVal "5".toList = 5 from by decide]
    norm_num
  have hext : extractedValue [["result,5".toList]]
      ((⟨"t".toList, "f".toList, 5, none, "v".toList⟩ : TestCase).expected)
      = some 5 := by
    unfold extractedValue find_result_in_csv
    rw [show splitCells "result,5".toList = ["result".toList, "5".toList] from by decide,
      scanCells_label_first _ 5 _ _ [] (Or.inl rfl) hparse5]
  have hkey : batchLineKey 1 "test_0,5".toList = some (0, 5) := by
    have hsplit : splitCells "test_0,5".toList = ["test_0".toList, "5".toList] := by decide
    have hstrip : (dropPrefixQ "assumptions.test_".toList "test_0".toList).orElse
        (fun _ => dropPrefixQ "test_".toList "test_0".toList) = some "0".toList := by decide
    have hidx : parseUsize? "0".toList = some 0 := by decide
    simp only [batchLineKey, hsplit, hstrip, hidx, hparse5]
    norm_num
  have hpb : parse_batch_csv ["test_0,5".toList] 1 = [Except.ok (5 : ℚ)] := by
    unfold parse_batch_csv
    simp only [List.foldl_cons, List.foldl_nil, processBatchLine, hkey]
    rfl
  constructor
  · exact claim_C1_judgment_eps_tolerance.1
      ⟨"t".toList, "f".toList, 5, none, "v".toList⟩
      ⟨.ok (), .ok (), .ok ⟨true, []⟩, .ok [["result,5".toList]]⟩
      ⟨true, []⟩ [["result,5".toList]] 5 rfl rfl rfl rfl rfl hext
  · exact claim_C1_judgment_eps_tolerance.2
      [] [⟨"t".toList, "f".toList, 5, none, "v".toList⟩]
      ⟨.ok (), .ok (), .ok ⟨true, []⟩, .ok ["test_0,5".toList]⟩
      ⟨true, []⟩ ["test_0,5".toList] 0
      ⟨"t".toList, "f".toList, 5, none, "v".toList⟩ 5
      rfl rfl rfl rfl rfl rfl (by
        rw [show ([(⟨"t".toList, "f".toList, 5, none,
          "v".toList⟩ : TestCase)].length) = 1 from rfl, hpb]
        rfl)

/-! ## Claim C2 -/

theorem labelHitAt_cons_succ (cells : List Str) (c : Str) (j : ℕ) :
    labelHitAt (c :: cells) (j + 1) = labelHitAt cells j := by
  unfold labelHitAt
  rw [List.getElem?_cons_succ, List.getElem?_cons_succ]

theorem fallbackHitAt_cons_succ (e : ℚ) (cells : List Str) (c : Str) (j : ℕ) :
    fallbackHitAt e (c :: cells) (j + 1) = fallbackHitAt e cells j := by
  unfold fallbackHitAt
  rw [List.getElem?_cons_succ]

theorem scanCells_cons_of_none (e : ℚ) (c : Str) (rest : List Str)
    (h1 : labelHitAt (c :: rest) 0 = none)
    (h2 : fallbackHitAt e (c :: rest) 0 = none) :
    scanCells e (c :: rest) = scanCells e rest := by
  simp only [labelHitAt, List.getElem?_cons_zero, Option.some_bind,
    List.getElem?_cons_succ] at h1
  simp only [fallbackHitAt, List.getElem?_cons_zero, Option.some_bind] at h2
  conv_lhs => unfold scanCells
  by_cases hcond : (c = "result".toList ∨ c = "test_result".toList)
  · rw [if_pos hcond] at h1 ⊢
    rw [List.head?_eq_getElem?, h1]
    cases hp : parseDec? c with
    | none => simp [hp]
    | some w =>
      simp only [hp, Option.some_bind] at h2
      simp only [hp]
      have hnw : ¬ |w - e| < fallbackTol := by
        intro hw
        rw [if_pos hw] at h2
        exact absurd h2 (by simp)
      rw [if_neg hnw]
  · rw [if_neg hcond]
    cases hp : parseDec? c with
    | none => simp [hp]
    | some w =>
      simp only [hp, Option.some_bind] at h2
      simp only [hp]
      have hnw : ¬ |w - e| < fallbackTol := by
        intro hw
        rw [if_pos hw] at h2
        exact absurd h2 (by simp)
      rw [if_neg hnw]

theorem scanCells_label_at (e v : ℚ) (cells : List Str) (i : ℕ)
    (hlab : labelHitAt cells i = some v)
    (hearlier : ∀ j < i, labelHitAt cells j = none ∧ fallbackHitAt e cells j = none) :
    scanCells e cells = some v := by
  induction cells generalizing i with
  | nil => simp [labelHitAt] at hlab
  | cons c rest ih =>
    cases i with
    | zero =>
      simp only [labelHitAt, List.getElem?_cons_zero, Option.some_bind,
        List.getElem?_cons_succ] at hlab
      by_cases hcond : (c = "result".toList ∨ c = "test_result".toList)
      · rw [if_pos hcond] at hlab
        conv_lhs => unfold scanCells
        rw [if_pos hcond, List.head?_eq_getElem?, hlab]
      · rw [if_neg hcond] at hlab
        exact absurd hlab (by simp)
    | succ n =>
      have h0 := hearlier 0 (Nat.succ_pos n)
      rw [scanCells_cons_of_none e c rest h0.1 h0.2]
      rw [labelHitAt_cons_succ] at hlab
      refine ih n hlab ?_
      intro j hj
      have := hearlier (j + 1) (by omega)
      rwa [labelHitAt_cons_succ, fallbackHitAt_cons_succ] at this

/-- C2 counterexample: with expected value `42` and the row `42,result,7`,
the fallback check on the first cell (`42`, within `0.0001` of the expected
value) fires before the labelled cell at position 1 is examined, so
`find_result_in_csv` returns `42`, not the labelled cell's number `7`.  The
claim that the labelled cell wins regardless of other numeric cells in the
row is therefore false. -/
theorem claim_C2_counterexample :
    find_result_in_csv ["42,result,7".toList] 42 = .ok 42 ∧
    labelHitAt (splitCells "42,result,7".toList) 1 = some 7 ∧
    (42 : ℚ) ≠ 7 := by
  have hp42 : parseDec? "42".toList = some 42 := by
    have h0 : parseDec? "42".toList = parseUnsigned? "42".toList := rfl
    rw [h0, parseUnsigned_one "42".toList "42".toList (by decide) (by decide),
      show digitsVal "42".toList = 42 from by decide]
    norm_num
  have hp7 : parseDec? "7".toList = some 7 := by
    have h0 : parseDec? "7".toList = parseUnsigned? "7".toList := rfl
    rw [h0, parseUnsigned_one "7".toList "7".toList (by decide) (by decide),
      show digitsVal "7".toList = 7 from by decide]
    norm_num
  have hsplit : splitCells "42,result,7".toList =
      ["42".toList, "result".toList, "7".toList] := by decide
  refine ⟨?_, ?_, by norm_num⟩
  · unfold find_result_in_csv
    rw [hsplit]
    have hscan : scanCells 42 ["42".toList, "result".toList, "7".toList] = some 42 := by
      conv_lhs => unfold scanCells
      rw [if_neg (by decide)]
      simp only [hp42]
      rw [if_pos (by rw [sub_self, abs_zero]; unfold fallbackTol; norm_num)]
    rw [hscan]
  · rw [hsplit]
    simp only [labelHitAt, List.getElem?_cons_zero, List.getElem?_cons_succ,
      Option.some_bind]
    rw [if_pos (by decide)]
    exact hp7

/-- C2 amended: within a row, cells are scanned left to right and at each
cell the label check precedes the fallback check for that same cell; the
first acceptance of either kind wins.  Hence a labelled cell (`result` or
`test_result` with a following cell that parses as a number) yields the
returned value exactly when no earlier cell produces a label or fallback
acceptance — not regardless of the other cells in the row. -/
theorem claim_C2_label_wins_if_no_earlier_hit (e v : ℚ) (lines : List Str)
    (line : Str) (i : ℕ)
    (hlab : labelHitAt (splitCells line) i = some v)
    (hearlier : ∀ j < i,
      labelHitAt (splitCells line) j = none ∧
      fallbackHitAt e (splitCells line) j = none) :
    find_result_in_csv (line :: lines) e = .ok v := by
  unfold find_result_in_csv
  rw [scanCells_label_at e v (splitCells line) i hlab hearlier]

theorem claim_C2_witness :
    find_result_in_csv ["result,7".toList] 3 = .ok 7 := by
  have hp7 : parseDec? "7".toList = some 7 := by
    have h0 : parseDec? "7".toList = parseUnsigned? "7".toList := rfl
    rw [h0, parseUnsigned_one "7".toList "7".toList (by decide) (by decide),
      show digitsVal "7".toList = 7 from by decide]
    norm_num
  refine claim_C2_label_wins_if_no_earlier_hit 3 7 [] "result,7".toList 0 ?_ ?_
  · rw [show splitCells "result,7".toList = ["result".toList, "7".toList] from by decide]
    simp only [labelHitAt, List.getElem?_cons_zero, List.getElem?_cons_succ,
      Option.some_bind]
    rw [if_pos (by decide)]
    exact hp7
  · intro j hj
    exact absurd hj (Nat.not_lt_zero j)

/-! ## Claim C5 -/

/-- C5: in batch mode, if temp-workspace creation, the synthesized-document
write, the subject-engine export (spawn failure or non-success exit), or the
oracle conversion fails, then the result is exactly the skip results
followed by one `Fail` per test case with `actual = None` and the identical
shared error message; no test case gets any other outcome. -/
theorem claim_C5_batch_failure_degrades_uniformly
    (skips : List SkipCase) (tests : List TestCase) (env : BatchEnv) :
    (∀ e, env.tempdir = .error e →
      run_batch skips tests env = skips.map mkSkipResult ++
        tests.map fun tc => infraFail tc ("Failed to create temp dir: ".toList ++ e)) ∧
    (∀ e, env.tempdir = .ok () → env.writeYaml = .error e →
      run_batch skips tests env = skips.map mkSkipResult ++
        tests.map fun tc => infraFail tc ("Failed to write YAML: ".toList ++ e)) ∧
    (∀ e, env.tempdir = .ok () → env.writeYaml = .ok () → env.forgeSpawn = .error e →
      run_batch skips tests env = skips.map mkSkipResult ++
        tests.map fun tc => infraFail tc ("Failed to run forge: ".toList ++ e)) ∧
    (∀ out, env.tempdir = .ok () → env.writeYaml = .ok () →
      env.forgeSpawn = .ok out → out.success = false →
      run_batch skips tests env = skips.map mkSkipResult ++
        tests.map fun tc => infraFail tc ("forge export failed: ".toList ++ out.stderr)) ∧
    (∀ e, env.tempdir = .ok () → env.writeYaml = .ok () →
      (∃ st, env.forgeSpawn = .ok ⟨true, st⟩) → env.csvLines = .error e →
      run_batch skips tests env = skips.map mkSkipResult ++
        tests.map fun tc => infraFail tc ("CSV conversion failed: ".toList ++ e)) := by
  obtain ⟨t, w, f, c⟩ := env
  refine ⟨?_, ?_, ?_, ?_, ?_⟩
  · intro e h1
    simp only at h1
    subst h1
    have hunf : run_batch skips tests ⟨.error e, w, f, c⟩ =
        if tests = [] then skips.map mkSkipResult
        else skips.map mkSkipResult ++
          tests.map fun tc => infraFail tc ("Failed to create temp dir: ".toList ++ e) := rfl
    rw [hunf]
    by_cases htests : tests = []
    · rw [if_pos htests, htests]
      simp
    · rw [if_neg htests]
  · intro e h1 h2
    simp only at h1 h2
    subst h1 h2
    have hunf : run_batch skips tests ⟨.ok (), .error e, f, c⟩ =
        if tests = [] then skips.map mkSkipResult
        else skips.map mkSkipResult ++
          tests.map fun tc => infraFail tc ("Failed to write YAML: ".toList ++ e) := rfl
    rw [hunf]
    by_cases htests : tests = []
    · rw [if_pos htests, htests]
      simp
    · rw [if_neg htests]
  · intro e h1 h2 h3
    simp only at h1 h2 h3
    subst h1 h2 h3
    have hunf : run_batch skips tests ⟨.ok (), .ok (), .error e, c⟩ =
        if tests = [] then skips.map mkSkipResult
        else skips.map mkSkipResult ++
          tests.map fun tc => infraFail tc ("Failed to run forge: ".toList ++ e) := rfl
    rw [hunf]
    by_cases htests : tests = []
    · rw [if_pos htests, htests]
      simp
    · rw [if_neg htests]
  · intro out h1 h2 h3 h4
    simp only at h1 h2 h3
    subst h1 h2 h3
    obtain ⟨su, st⟩ := out
    simp only [ForgeOut.success] at h4
    subst h4
    have hunf : run_batch skips tests ⟨.ok (), .ok (), .ok ⟨false, st⟩, c⟩ =
        if tests = [] then skips.map mkSkipResult
        else skips.map mkSkipResult ++
          tests.map fun tc => infraFail tc ("forge export failed: ".toList ++ st) := rfl
    rw [hunf]
    by_cases htests : tests = []
    · rw [if_pos htests, htests]
      simp
    · rw [if_neg htests]
  · intro e h1 h2 h3 h4
    obtain ⟨st, h3⟩ := h3
    simp only at h1 h2 h3 h4
    subst h1 h2 h3 h4
    have hunf : run_batch skips tests ⟨.ok (), .ok (), .ok ⟨true, st⟩, .error e⟩ =
        if tests = [] then skips.map mkSkipResult
        else skips.map mkSkipResult ++
          tests.map fun tc => infraFail tc ("CSV conversion failed: ".toList ++ e) := rfl
    rw [hunf]
    by_cases htests : tests = []
    · rw [if_pos htests, htests]
      simp
    · rw [if_neg htests]

theorem claim_C5_witness :
    run_batch [⟨"s".toList, "r".toList⟩] [⟨"t".toList, "f".toList, 1, none, "v".toList⟩]
      ⟨.error "no space".toList, .ok (), .ok ⟨true, []⟩, .ok []⟩
      = [⟨"s".toList, "r".toList⟩].map mkSkipResult ++
        [⟨"t".toList, "f".toList, 1, none, "v".toList⟩].map
          (fun tc => infraFail tc
            ("Failed to create temp dir: ".toList ++ "no space".toList)) :=
  (claim_C5_batch_failure_degrades_uniformly
    [⟨"s".toList, "r".toList⟩] [⟨"t".toList, "f".toList, 1, none, "v".toList⟩]
    ⟨.error "no space".toList, .ok (), .ok ⟨true, []⟩, .ok []⟩).1
    "no space".toList rfl

/-! ## Claim C10 -/

theorem mapIdx_const {α β : Type} (g : α → β) (l : List α) :
    l.mapIdx (fun _ a => g a) = l.map g := by
  induction l with
  | nil => rfl
  | cons a l ih => rw [List.mapIdx_cons, List.map_cons, ih]

theorem judgeBatchSlot_outcome (tc : TestCase) (slot : Option (Except Str ℚ)) :
    (judgeBatchSlot tc slot).isRunOutcome = true ∧
    (judgeBatchSlot tc slot).rname = tc.name := by
  unfold judgeBatchSlot
  split
  · split
    · exact ⟨rfl, rfl⟩
    · exact ⟨rfl, rfl⟩
  · exact ⟨rfl, rfl⟩
  · exact ⟨rfl, rfl⟩

theorem judgeSheets_outcome (tc : TestCase) (sheets : List (List Str)) :
    (judgeSheets tc sheets).isRunOutcome = true ∧
    (judgeSheets tc sheets).rname = tc.name := by
  induction sheets with
  | nil => exact ⟨rfl, rfl⟩
  | cons sheet rest ih =>
    unfold judgeSheets
    split
    · split
      · exact ⟨rfl, rfl⟩
      · exact ⟨rfl, rfl⟩
    · exact ih

theorem run_test_outcome (tc : TestCase) (env : SingleEnv) :
    (run_test tc env).isRunOutcome = true ∧ (run_test tc env).rname = tc.name := by
  obtain ⟨t, w, f, c⟩ := env
  cases t with
  | error e => exact ⟨rfl, rfl⟩
  | ok u =>
    cases w with
    | error e => exact ⟨rfl, rfl⟩
    | ok u' =>
      cases f with
      | error e => exact ⟨rfl, rfl⟩
      | ok out =>
        obtain ⟨su, st⟩ := out
        cases su with
        | false => exact ⟨rfl, rfl⟩
        | true =>
          cases c with
          | error e => exact ⟨rfl, rfl⟩
          | ok sheets =>
            have : run_test tc ⟨.ok u, .ok u', .ok ⟨true, st⟩, .ok sheets⟩ =
                judgeSheets tc sheets := rfl
            rw [this]
            exact judgeSheets_outcome tc sheets

theorem foldl_push_map {α β : Type} (g : α → β) (l : List α) (init : List β) :
    l.foldl (fun acc x => acc ++ [g x]) init = init ++ l.map g := by
  induction l generalizing init with
  | nil => simp
  | cons a l ih =>
    rw [List.foldl_cons, ih, List.map_cons]
    simp

theorem foldl_push_mapIdx (tests : List TestCase) (envs : ℕ → SingleEnv) :
    ∀ (init : List TestResult) (i : ℕ),
      (tests.foldl
        (fun (st : List TestResult × ℕ) tc =>
          (st.1 ++ [run_test tc (envs st.2)], st.2 + 1)) (init, i)).1 =
        init ++ tests.mapIdx fun k tc => run_test tc (envs (i + k)) := by
  induction tests with
  | nil => intro init i; simp
  | cons tc rest ih =>
    intro init i
    rw [List.foldl_cons, ih, List.mapIdx_cons]
    simp only [Nat.add_zero, List.append_assoc, List.singleton_append]
    congr 2
    apply congrArg₂ List.mapIdx ?_ rfl
    funext k tcx
    rw [show i + 1 + k = i + (k + 1) by omega]

theorem run_all_streaming_eq_run_all (skips : List SkipCase) (tests : List TestCase)
    (envs : ℕ → SingleEnv) :
    run_all_streaming skips tests envs = run_all skips tests envs := by
  unfold run_all_streaming run_all
  rw [foldl_push_map mkSkipResult skips [], foldl_push_mapIdx tests envs]
  simp

theorem run_batch_shape (skips : List SkipCase) (tests : List TestCase) (env : BatchEnv) :
    ∃ f : ℕ → TestCase → TestResult,
      run_batch skips tests env = skips.map mkSkipResult ++ tests.mapIdx f ∧
      ∀ i tc, (f i tc).isRunOutcome = true ∧ (f i tc).rname = tc.name := by
  by_cases htests : tests = []
  · subst htests
    refine ⟨fun _ tc => infraFail tc [], ?_, ?_⟩
    · have : run_batch skips [] env = skips.map mkSkipResult := rfl
      rw [this]
      simp
    · intro i tc
      exact ⟨rfl, rfl⟩
  · obtain ⟨t, w, f, c⟩ := env
    cases t with
    | error e =>
      refine ⟨fun _ tc => infraFail tc ("Failed to create temp dir: ".toList ++ e), ?_, ?_⟩
      · have : run_batch skips tests ⟨.error e, w, f, c⟩ =
            if tests = [] then skips.map mkSkipResult
            else skips.map mkSkipResult ++
              tests.map fun tc => infraFail tc ("Failed to create temp dir: ".toList ++ e) := rfl
        rw [this, if_neg htests, mapIdx_const]
      · intro i tc
        exact ⟨rfl, rfl⟩
    | ok u =>
      cases u
      cases w with
      | error e =>
        refine ⟨fun _ tc => infraFail tc ("Failed to write YAML: ".toList ++ e), ?_, ?_⟩
        · have : run_batch skips tests ⟨.ok (), .error e, f, c⟩ =
              if tests = [] then skips.map mkSkipResult
              else skips.map mkSkipResult ++
                tests.map fun tc => infraFail tc ("Failed to write YAML: ".toList ++ e) := rfl
          rw [this, if_neg htests, mapIdx_const]
        · intro i tc
          exact ⟨rfl, rfl⟩
      | ok u' =>
        cases u'
        cases f with
        | error e =>
          refine ⟨fun _ tc => infraFail tc ("Failed to run forge: ".toList ++ e), ?_, ?_⟩
          · have : run_batch skips tests ⟨.ok (), .ok (), .error e, c⟩ =
                if tests = [] then skips.map mkSkipResult
                else skips.map mkSkipResult ++
                  tests.map fun tc => infraFail tc ("Failed to run forge: ".toList ++ e) := rfl
            rw [this, if_neg htests, mapIdx_const]
          · intro i tc
            exact ⟨rfl, rfl⟩
        | ok out =>
          obtain ⟨su, st⟩ := out
          cases su with
          | false =>
            refine ⟨fun _ tc => infraFail tc ("forge export failed: ".toList ++ st), ?_, ?_⟩
            · have : run_batch skips tests ⟨.ok (), .ok (), .ok ⟨false, st⟩, c⟩ =
                  if tests = [] then skips.map mkSkipResult
                  else skips.map mkSkipResult ++
                    tests.map fun tc => infraFail tc ("forge export failed: ".toList ++ st) := rfl
              rw [this, if_neg htests, mapIdx_const]
            · intro i tc
              exact ⟨rfl, rfl⟩
          | true =>
            cases c with
            | error e =>
              refine ⟨fun _ tc => infraFail tc ("CSV conversion failed: ".toList ++ e), ?_, ?_⟩
              · have : run_batch skips tests ⟨.ok (), .ok (), .ok ⟨true, st⟩, .error e⟩ =
                    if tests = [] then skips.map mkSkipResult
                    else skips.map mkSkipResult ++
                      tests.map fun tc =>
                        infraFail tc ("CSV conversion failed: ".toList ++ e) := rfl
                rw [this, if_neg htests, mapIdx_const]
              · intro i tc
                exact ⟨rfl, rfl⟩
            | ok lines =>
              refine ⟨fun i tc =>
                judgeBatchSlot tc (parse_batch_csv lines tests.length)[i]?, ?_, ?_⟩
              · have : run_batch skips tests ⟨.ok (), .ok (), .ok ⟨true, st⟩, .ok lines⟩ =
                    if tests = [] then skips.map mkSkipResult
                    else skips.map mkSkipResult ++
                      tests.mapIdx fun i tc =>
                        judgeBatchSlot tc (parse_batch_csv lines tests.length)[i]? := rfl
                rw [this, if_neg htests]
              · intro i tc
                exact judgeBatchSlot_outcome tc _

theorem completeResults_of_shape (skips : List SkipCase) (tests : List TestCase)
    (r : List TestResult) (f : ℕ → TestCase → TestResult)
    (hr : r = skips.map mkSkipResult ++ tests.mapIdx f)
    (hf : ∀ i tc, (f i tc).isRunOutcome = true ∧ (f i tc).rname = tc.name) :
    completeResults skips tests r := by
  refine ⟨tests.mapIdx f, hr, List.length_mapIdx, ?_⟩
  intro j res tc hres htc
  rw [List.getElem?_mapIdx, htc] at hres
  have : res = f j tc := by
    simpa using hres.symm
  rw [this]
  exact hf j tc

/-- C10: each of the three execution strategies returns exactly one result
per loaded case: one `Skip` carrying its reason per `SkipCase`, followed by
exactly one `Pass`-or-`Fail` per `TestCase` (reporting that case's name),
with all skip results preceding all test results.  This covers the
batch-mode early return on zero test cases and every batch-mode
infrastructure-failure branch (the external outcomes `envs` and `benv` are
universally quantified). -/
theorem claim_C10_per_case_result_completeness (skips : List SkipCase)
    (tests : List TestCase) (envs : ℕ → SingleEnv) (benv : BatchEnv) :
    completeResults skips tests (run_all skips tests envs) ∧
    completeResults skips tests (run_all_streaming skips tests envs) ∧
    completeResults skips tests (run_batch skips tests benv) := by
  have hall : completeResults skips tests (run_all skips tests envs) := by
    refine completeResults_of_shape skips tests _ (fun i tc => run_test tc (envs i)) rfl ?_
    intro i tc
    exact run_test_outcome tc (envs i)
  refine ⟨hall, ?_, ?_⟩
  · rw [run_all_streaming_eq_run_all]
    exact hall
  · obtain ⟨f, hshape, hf⟩ := run_batch_shape skips tests benv
    exact completeResults_of_shape skips tests _ f hshape hf

theorem claim_C10_witness :
    completeResults [⟨"s".toList, "r".toList⟩] []
      (run_all [⟨"s".toList, "r".toList⟩] []
        (fun _ => ⟨.ok (), .ok (), .ok ⟨true, []⟩, .ok []⟩)) ∧
    completeResults [⟨"s".toList, "r".toList⟩] []
      (run_all_streaming [⟨"s".toList, "r".toList⟩] []
        (fun _ => ⟨.ok (), .ok (), .ok ⟨true, []⟩, .ok []⟩)) ∧
    completeResults [⟨"s".toList, "r".toList⟩] []
      (run_batch [⟨"s".toList, "r".toList⟩] []
        ⟨.ok (), .ok (), .ok ⟨true, []⟩, .ok []⟩) :=
  claim_C10_per_case_result_completeness [⟨"s".toList, "r".toList⟩] []
    (fun _ => ⟨.ok (), .ok (), .ok ⟨true, []⟩, .ok []⟩)
    ⟨.ok (), .ok (), .ok ⟨true, []⟩, .ok []⟩

/-! ## Claims C6 and C7 -/

theorem processBatchLine_length (count : ℕ) (results : List (Except Str ℚ)) (line : Str) :
    (processBatchLine count results line).length = results.length := by
  unfold processBatchLine
  split
  · exact List.length_set results _ _
  · rfl

theorem parse_foldl_length (count : ℕ) (lines : List Str) :
    ∀ init : List (Except Str ℚ),
      (lines.foldl (processBatchLine count) init).length = init.length := by
  induction lines with
  | nil => intro init; rfl
  | cons l ls ih =>
    intro init
    rw [List.foldl_cons, ih, processBatchLine_length]

theorem parse_batch_csv_length (lines : List Str) (count : ℕ) :
    (parse_batch_csv lines count).length = count := by
  unfold parse_batch_csv
  rw [parse_foldl_length, List.length_replicate]

theorem lastHit_append_singleton (count i : ℕ) (lines : List Str) (l : Str) :
    lastHit count i (lines ++ [l]) =
      match batchLineHit count i l with
      | some v => some v
      | none => lastHit count i lines := by
  unfold lastHit
  rw [List.foldl_append]
  rfl

theorem parse_foldl_get (count i : ℕ) (hi : i < count) (lines : List Str) :
    ∀ init : List (Except Str ℚ), init.length = count →
      (lines.foldl (processBatchLine count) init)[i]? =
        match lastHit count i lines with
        | some v => some (.ok v)
        | none => init[i]? := by
  induction lines using List.reverseRecOn with
  | nil => intro init _; rfl
  | append_singleton ls l ih =>
    intro init hlen
    rw [List.foldl_append, List.foldl_cons, List.foldl_nil, lastHit_append_singleton]
    have hlen' : (ls.foldl (processBatchLine count) init).length = count := by
      rw [parse_foldl_length, hlen]
    simp only [processBatchLine, batchLineHit]
    cases hkey : batchLineKey count l with
    | none =>
      simp only []
      exact ih init hlen
    | some kv =>
      simp only []
      by_cases hkvi : kv.1 = i
      · rw [if_pos hkvi, hkvi, List.getElem?_set_self (by rw [hlen']; exact hi)]
      · rw [if_neg hkvi, List.getElem?_set_ne hkvi]
        exact ih init hlen

theorem parse_batch_csv_get (lines : List Str) (count i : ℕ) (hi : i < count) :
    (parse_batch_csv lines count)[i]? = some (slotOfHit (lastHit count i lines)) := by
  unfold parse_batch_csv
  rw [parse_foldl_get count i hi lines _ (List.length_replicate count _)]
  cases h : lastHit count i lines with
  | some v => rfl
  | none =>
    rw [List.getElem?_replicate, if_pos hi]
    rfl

theorem lastHit_eq_none_iff (count i : ℕ) (lines : List Str) :
    lastHit count i lines = none ↔ ∀ l ∈ lines, batchLineHit count i l = none := by
  induction lines using List.reverseRecOn with
  | nil => simp [lastHit]
  | append_singleton ls l ih =>
    rw [lastHit_append_singleton]
    cases h : batchLineHit count i l with
    | some v =>
      simp only []
      constructor
      · intro hfalse
        exact absurd hfalse (by simp)
      · intro hall
        have := hall l (by simp)
        rw [h] at this
        exact absurd this (by simp)
    | none =>
      simp only []
      rw [ih]
      constructor
      · intro hall l' hl'
        rcases List.mem_append.mp hl' with hmem | hmem
        · exact hall l' hmem
        · rw [List.mem_singleton.mp hmem, h]
      · intro hall l' hl'
        exact hall l' (List.mem_append.mpr (Or.inl hl'))

theorem lastHit_mem (count i : ℕ) (lines : List Str) (v : ℚ)
    (h : lastHit count i lines = some v) :
    ∃ l ∈ lines, batchLineHit count i l = some v := by
  induction lines using List.reverseRecOn with
  | nil => exact absurd h (by simp [lastHit])
  | append_singleton ls l ih =>
    rw [lastHit_append_singleton] at h
    cases hl : batchLineHit count i l with
    | some w =>
      rw [hl] at h
      simp only [Option.some.injEq] at h
      exact ⟨l, by simp, by rw [hl, h]⟩
    | none =>
      rw [hl] at h
      obtain ⟨l', hl', hhit⟩ := ih h
      exact ⟨l', List.mem_append.mpr (Or.inl hl'), hhit⟩

theorem parse5 : parseDec? "5".toList = some 5 := by
  have h0 : parseDec? "5".toList = parseUnsigned? "5".toList := rfl
  rw [h0, parseUnsigned_one "5".toList "5".toList (by decide) (by decide),
    show digitsVal "5".toList = 5 from by decide]
  norm_num

theorem parse7 : parseDec? "7".toList = some 7 := by
  have h0 : parseDec? "7".toList = parseUnsigned? "7".toList := rfl
  rw [h0, parseUnsigned_one "7".toList "7".toList (by decide) (by decide),
    show digitsVal "7".toList = 7 from by decide]
  norm_num

theorem batchKey_line05 : batchLineKey 1 "test_0,5".toList = some (0, 5) := by
  have hsplit : splitCells "test_0,5".toList = ["test_0".toList, "5".toList] := by decide
  have hstrip : (dropPrefixQ "assumptions.test_".toList "test_0".toList).orElse
      (fun _ => dropPrefixQ "test_".toList "test_0".toList) = some "0".toList := by decide
  have hidx : parseUsize? "0".toList = some 0 := by decide
  simp only [batchLineKey, hsplit, hstrip, hidx, parse5]
  norm_num

theorem batchKey_line07 : batchLineKey 1 "test_0,7".toList = some (0, 7) := by
  have hsplit : splitCells "test_0,7".toList = ["test_0".toList, "7".toList] := by decide
  have hstrip : (dropPrefixQ "assumptions.test_".toList "test_0".toList).orElse
      (fun _ => dropPrefixQ "test_".toList "test_0".toList) = some "0".toList := by decide
  have hidx : parseUsize? "0".toList = some 0 := by decide
  simp only [batchLineKey, hsplit, hstrip, hidx, parse7]
  norm_num

theorem batchKey_lineX : batchLineKey 1 "x".toList = none := by decide

theorem batchLineHit_of_key (count i : ℕ) (line : Str) (kv : ℕ × ℚ)
    (h : batchLineKey count line = some kv) :
    batchLineHit count i line = if kv.1 = i then some kv.2 else none := by
  unfold batchLineHit
  rw [h]

theorem batchLineHit_of_key_none (count i : ℕ) (line : Str)
    (h : batchLineKey count line = none) :
    batchLineHit count i line = none := by
  unfold batchLineHit
  rw [h]

theorem parse_batch_57 :
    parse_batch_csv ["test_0,5".toList, "test_0,7".toList] 1 = [.ok 7] := by
  unfold parse_batch_csv
  simp only [List.foldl_cons, List.foldl_nil, processBatchLine,
    batchKey_line05, batchKey_line07]
  rfl

theorem parse_batch_75 :
    parse_batch_csv ["test_0,7".toList, "test_0,5".toList] 1 = [.ok 5] := by
  unfold parse_batch_csv
  simp only [List.foldl_cons, List.foldl_nil, processBatchLine,
    batchKey_line05, batchKey_line07]
  rfl

/-- C6 counterexample: with the two lines `test_0,5` and `test_0,7` and
count 1, the first line qualifies for index 0 with value 5, so the claim's
biconditional ("slot i holds Ok(v) exactly when SOME line ... parses as v")
forces slot 0 to hold `Ok 5`; but the code keeps the LAST qualifying line's
value, so slot 0 holds `Ok 7`. -/
theorem claim_C6_counterexample :
    batchLineHit 1 0 "test_0,5".toList = some 5 ∧
    "test_0,5".toList ∈ (["test_0,5".toList, "test_0,7".toList] : List Str) ∧
    parse_batch_csv ["test_0,5".toList, "test_0,7".toList] 1 = [.ok 7] ∧
    (Except.ok (7 : ℚ) : Except Str ℚ) ≠ .ok 5 := by
  refine ⟨?_, by simp, parse_batch_57, by simp⟩
  rw [batchLineHit_of_key 1 0 _ _ batchKey_line05, if_pos rfl]

/-- C6 amended: `parse_batch_csv` returns one slot per index `0..count`;
slot `i` holds `Ok(v)` exactly when the LAST line whose first cell, after
stripping the `test_` label prefix (optionally preceded by `assumptions.`),
parses as the integer `i` with `i < count` and whose second cell parses as a
number, yields `v`; every index matched by no line holds the missing-result
error.  (`lastHit`/`batchLineHit` formalize this qualification;
`lastHit_eq_none_iff` and `lastHit_mem` connect them to the existence of
qualifying lines.) -/
theorem claim_C6_batch_slots_last_qualifying (lines : List Str) (count : ℕ) :
    (parse_batch_csv lines count).length = count ∧
    (∀ i, i < count →
      (parse_batch_csv lines count)[i]? = some (slotOfHit (lastHit count i lines))) ∧
    (∀ i, lastHit count i lines = none ↔ ∀ l ∈ lines, batchLineHit count i l = none) ∧
    (∀ i v, lastHit count i lines = some v →
      ∃ l ∈ lines, batchLineHit count i l = some v) := by
  refine ⟨parse_batch_csv_length lines count, ?_, ?_, ?_⟩
  · intro i hi
    exact parse_batch_csv_get lines count i hi
  · intro i
    exact lastHit_eq_none_iff count i lines
  · intro i v
    exact lastHit_mem count i lines v

theorem claim_C6_witness :
    (parse_batch_csv ["test_0,5".toList] 1).length = 1 ∧
    (parse_batch_csv ["test_0,5".toList] 1)[0]? =
      some (slotOfHit (lastHit 1 0 ["test_0,5".toList])) :=
  ⟨(claim_C6_batch_slots_last_qualifying ["test_0,5".toList] 1).1,
   (claim_C6_batch_slots_last_qualifying ["test_0,5".toList] 1).2.1 0 (by norm_num)⟩

/-- C7 counterexample: permuting the two lines `test_0,5` and `test_0,7`
changes the result of `parse_batch_csv` from `[Ok 7]` to `[Ok 5]`, because
the later qualifying line for an index overwrites the earlier one.  Order
insensitivity therefore fails on inputs where two lines qualify for the same
index with different values. -/
theorem claim_C7_counterexample :
    (["test_0,5".toList, "test_0,7".toList] : List Str).Perm
      ["test_0,7".toList, "test_0,5".toList] ∧
    parse_batch_csv ["test_0,5".toList, "test_0,7".toList] 1 = [.ok 7] ∧
    parse_batch_csv ["test_0,7".toList, "test_0,5".toList] 1 = [.ok 5] ∧
    ([Except.ok (7 : ℚ)] : List (Except Str ℚ)) ≠ [.ok 5] := by
  refine ⟨List.Perm.swap _ _ _, parse_batch_57, parse_batch_75, ?_⟩
  simp

/-- C7 amended: batch extraction is order-insensitive provided no index is
given two different values by two qualifying lines: if `lines'` is a
permutation of `lines` and all qualifying lines agree per index, then
`parse_batch_csv` returns the same result vector. -/
theorem claim_C7_perm_invariant_when_consistent (lines lines' : List Str)
    (count : ℕ) (hperm : lines.Perm lines')
    (hagree : ∀ (i : ℕ), ∀ l₁ ∈ lines, ∀ l₂ ∈ lines, ∀ (v₁ v₂ : ℚ),
      batchLineHit count i l₁ = some v₁ → batchLineHit count i l₂ = some v₂ →
      v₁ = v₂) :
    parse_batch_csv lines count = parse_batch_csv lines' count := by
  have hlast : ∀ i, lastHit count i lines = lastHit count i lines' := by
    intro i
    cases h : lastHit count i lines with
    | none =>
      have hall := (lastHit_eq_none_iff count i lines).mp h
      symm
      rw [lastHit_eq_none_iff]
      intro l hl
      exact hall l (hperm.mem_iff.mpr hl)
    | some v =>
      obtain ⟨l, hl, hhit⟩ := lastHit_mem count i lines v h
      cases h' : lastHit count i lines' with
      | none =>
        have hall := (lastHit_eq_none_iff count i lines').mp h'
        have hnone := hall l (hperm.mem_iff.mp hl)
        rw [hhit] at hnone
        exact absurd hnone (by simp)
      | some v' =>
        obtain ⟨l', hl', hhit'⟩ := lastHit_mem count i lines' v' h'
        rw [hagree i l' (hperm.mem_iff.mpr hl') l hl v' v hhit' hhit]
  apply List.ext_getElem?
  intro n
  by_cases hn : n < count
  · rw [parse_batch_csv_get lines count n hn, parse_batch_csv_get lines' count n hn,
      hlast n]
  · rw [List.getElem?_eq_none (by rw [parse_batch_csv_length]; omega),
      List.getElem?_eq_none (by rw [parse_batch_csv_length]; omega)]

theorem claim_C7_witness :
    parse_batch_csv ["test_0,5".toList, "x".toList] 1 =
      parse_batch_csv ["x".toList, "test_0,5".toList] 1 := by
  have hx : ∀ j, batchLineHit 1 j "x".toList = none := by
    intro j
    exact batchLineHit_of_key_none 1 j _ batchKey_lineX
  have h5 : ∀ j v, batchLineHit 1 j "test_0,5".toList = some v → v = 5 := by
    intro j v hv
    rw [batchLineHit_of_key 1 j _ _ batchKey_line05] at hv
    by_cases h0 : (0 : ℕ) = j
    · rw [if_pos h0] at hv
      simpa using hv.symm
    · rw [if_neg h0] at hv
      exact absurd hv (by simp)
  refine claim_C7_perm_invariant_when_consistent _ _ 1 (List.Perm.swap _ _ _) ?_
  intro i l₁ hl₁ l₂ hl₂ v₁ v₂ e₁ e₂
  simp only [List.mem_cons, List.mem_singleton, List.not_mem_nil, or_false] at hl₁ hl₂
  rcases hl₁ with rfl | rfl
  · rcases hl₂ with rfl | rfl
    · rw [h5 i v₁ e₁, h5 i v₂ e₂]
    · rw [hx i] at e₂
      exact absurd e₂ (by simp)
  · rw [hx i] at e₁
    exact absurd e₁ (by simp)

/-! ## Claim C8: digit-level lemmas -/

theorem digitChar_isDigit (d : ℕ) : (digitChar d).isDigit = true := by
  unfold digitChar
  split <;> decide

theorem digitChar_toNat (d : ℕ) (h : d < 10) : (digitChar d).toNat - 48 = d := by
  interval_cases d <;> decide

theorem digitChar_ne_dot (d : ℕ) : digitChar d ≠ '.' := by
  unfold digitChar
  split <;> decide

theorem digitChar_ne_comma (d : ℕ) : digitChar d ≠ ',' := by
  unfold digitChar
  split <;> decide

theorem digitChar_not_ws (d : ℕ) : isWs (digitChar d) = false := by
  unfold digitChar
  split <;> decide

theorem digitsLE_zero : digitsLE 0 = [] := by rw [digitsLE]

theorem digitsLE_succ (m : ℕ) :
    digitsLE (m + 1) = ((m + 1) % 10) :: digitsLE ((m + 1) / 10) := by
  rw [digitsLE]

theorem digitsVal_append_singleton (s : Str) (c : Char) :
    digitsVal (s ++ [c]) = digitsVal s * 10 + (c.toNat - 48) := by
  unfold digitsVal
  rw [List.foldl_append]
  rfl

theorem digitsVal_digitsLE (m : ℕ) :
    digitsVal (((digitsLE m).map digitChar).reverse) = m := by
  induction m using Nat.strong_induction_on with
  | _ m ih =>
    match m with
    | 0 => rw [digitsLE_zero]; rfl
    | n + 1 =>
      rw [digitsLE_succ, List.map_cons, List.reverse_cons, digitsVal_append_singleton,
        ih ((n + 1) / 10) (Nat.div_lt_self (Nat.succ_pos n) (by norm_num)),
        digitChar_toNat _ (Nat.mod_lt _ (by norm_num))]
      omega

theorem digitsVal_natStr (n : ℕ) : digitsVal (natStr n) = n := by
  unfold natStr
  by_cases h : n = 0
  · rw [if_pos h, h]
    rfl
  · rw [if_neg h]
    exact digitsVal_digitsLE n

theorem natStr_mem_isDigit (n : ℕ) (c : Char) (hc : c ∈ natStr n) :
    c.isDigit = true := by
  unfold natStr at hc
  by_cases h : n = 0
  · rw [if_pos h] at hc
    rw [List.mem_singleton.mp hc]
    decide
  · rw [if_neg h] at hc
    rw [List.mem_reverse] at hc
    obtain ⟨d, _, rfl⟩ := List.mem_map.mp hc
    exact digitChar_isDigit d

theorem natStr_ne_nil (n : ℕ) : natStr n ≠ [] := by
  unfold natStr
  by_cases h : n = 0
  · rw [if_pos h]
    simp
  · rw [if_neg h]
    match m : n with
    | 0 => exact absurd rfl h
    | k + 1 =>
      rw [digitsLE_succ]
      simp

theorem allDigits_natStr (n : ℕ) : allDigits (natStr n) = true := by
  unfold allDigits
  rw [List.all_eq_true]
  intro c hc
  exact natStr_mem_isDigit n c hc

theorem digitsLE_length_le (k : ℕ) : ∀ m : ℕ, m < 10 ^ k → (digitsLE m).length ≤ k := by
  induction k with
  | zero =>
    intro m hm
    interval_cases m
    simp [digitsLE_zero]
  | succ k ih =>
    intro m hm
    match m with
    | 0 => simp [digitsLE_zero]
    | n + 1 =>
      rw [digitsLE_succ, List.length_cons]
      have : (n + 1) / 10 < 10 ^ k := by
        rw [Nat.div_lt_iff_lt_mul (by norm_num)]
        calc n + 1 < 10 ^ (k + 1) := hm
        _ = 10 ^ k * 10 := by ring
      exact Nat.succ_le_succ (ih _ this)

theorem natStr_length_le (n k : ℕ) (hk : 1 ≤ k) (h : n < 10 ^ k) :
    (natStr n).length ≤ k := by
  unfold natStr
  by_cases h0 : n = 0
  · rw [if_pos h0]
    simpa using hk
  · rw [if_neg h0, List.length_reverse, List.length_map]
    exact digitsLE_length_le k n h

theorem digitsVal_replicate_zero_append (z : ℕ) (s : Str) :
    digitsVal (List.replicate z '0' ++ s) = digitsVal s := by
  induction z with
  | zero => rfl
  | succ z ih =>
    rw [List.replicate_succ, List.cons_append]
    show digitsVal (List.replicate z '0' ++ s) = digitsVal s
    exact ih

theorem digitsVal_padZeros (k : ℕ) (s : Str) :
    digitsVal (padZeros k s) = digitsVal s := by
  unfold padZeros
  exact digitsVal_replicate_zero_append _ s

theorem padZeros_length (k : ℕ) (s : Str) (h : s.length ≤ k) :
    (padZeros k s).length = k := by
  unfold padZeros
  rw [List.length_append, List.length_replicate]
  omega

theorem padZeros_mem_isDigit (k : ℕ) (s : Str) (hs : ∀ c ∈ s, c.isDigit = true)
    (c : Char) (hc : c ∈ padZeros k s) : c.isDigit = true := by
  unfold padZeros at hc
  rcases List.mem_append.mp hc with hmem | hmem
  · rw [List.eq_of_mem_replicate hmem]
    decide
  · exact hs c hmem

theorem splitOnChar_cons_eq (sep c : Char) (cs : Str) :
    splitOnChar sep (c :: cs) =
      match splitOnChar sep cs with
      | [] => [[]]
      | r :: rs => if c = sep then [] :: r :: rs else (c :: r) :: rs := rfl

theorem splitOnChar_ne_nil (sep : Char) (s : Str) : splitOnChar sep s ≠ [] := by
  cases s with
  | nil => simp [splitOnChar]
  | cons c cs =>
    rw [splitOnChar_cons_eq]
    split
    · simp
    · split <;> simp

theorem splitOnChar_no_sep (sep : Char) (s : Str) (h : ∀ c ∈ s, c ≠ sep) :
    splitOnChar sep s = [s] := by
  induction s with
  | nil => rfl
  | cons c cs ih =>
    rw [splitOnChar_cons_eq, ih (fun c' hc' => h c' (List.mem_cons_of_mem c hc'))]
    simp only []
    rw [if_neg (h c (List.mem_cons_self c cs))]

theorem splitOnChar_sep_append (sep : Char) (A B : Str) (hA : ∀ c ∈ A, c ≠ sep) :
    splitOnChar sep (A ++ sep :: B) = A :: splitOnChar sep B := by
  induction A with
  | nil =>
    rw [List.nil_append, splitOnChar_cons_eq]
    cases hB : splitOnChar sep B with
    | nil => exact absurd hB (splitOnChar_ne_nil sep B)
    | cons r rs =>
      simp only [if_true]
  | cons a A ih =>
    rw [List.cons_append, splitOnChar_cons_eq,
      ih (fun c' hc' => hA c' (List.mem_cons_of_mem a hc'))]
    simp only []
    rw [if_neg (hA a (List.mem_cons_self a A))]

theorem parseDec_of_digit_head (c : Char) (r : Str) (hc : c.isDigit = true) :
    parseDec? (c :: r) = parseUnsigned? (c :: r) := by
  have hminus : c ≠ '-' := by
    rintro rfl
    simp at hc
  have hplus : c ≠ '+' := by
    rintro rfl
    simp at hc
  unfold parseDec?
  split
  · rename_i heq
    injection heq with h1 _
    exact absurd h1 hminus
  · rename_i heq
    injection heq with h1 _
    exact absurd h1 hplus
  · rfl

theorem parseDec_neg_head (s : Str) :
    parseDec? ('-' :: s) = (parseUnsigned? s).map (fun q => -q) := rfl

theorem isDigit_ne_dot (c : Char) (h : c.isDigit = true) : c ≠ '.' := by
  rintro rfl
  simp at h

theorem isDigit_ne_comma (c : Char) (h : c.isDigit = true) : c ≠ ',' := by
  rintro rfl
  simp at h

theorem isDigit_not_ws (c : Char) (h : c.isDigit = true) : isWs c = false := by
  revert h
  unfold Char.isDigit isWs
  intro h
  simp only [Bool.or_eq_false_iff]
  refine ⟨⟨⟨?_, ?_⟩, ?_⟩, ?_⟩ <;>
    · simp only [decide_eq_false_iff_not]
      rintro rfl
      simp at h

theorem dropWhile_eq_self_of_none {p : Char → Bool} (s : Str)
    (h : ∀ c ∈ s, p c = false) : s.dropWhile p = s := by
  cases s with
  | nil => rfl
  | cons c cs =>
    rw [List.dropWhile_cons, if_neg]
    rw [h c (List.mem_cons_self c cs)]
    simp

theorem trimStr_of_no_ws (s : Str) (h : ∀ c ∈ s, isWs c = false) :
    trimStr s = s := by
  unfold trimStr
  rw [dropWhile_eq_self_of_none s h]
  rw [dropWhile_eq_self_of_none s.reverse (fun c hc => h c (List.mem_reverse.mp hc))]
  exact List.reverse_reverse s

theorem trimStr_space_cons (s : Str) (h : ∀ c ∈ s, isWs c = false) :
    trimStr (' ' :: s) = s := by
  unfold trimStr
  rw [List.dropWhile_cons, if_pos (by decide)]
  rw [dropWhile_eq_self_of_none s h]
  rw [dropWhile_eq_self_of_none s.reverse (fun c hc => h c (List.mem_reverse.mp hc))]
  exact List.reverse_reverse s

theorem fracDigitsCount_dvd (den : ℕ) (h : den ∣ 10 ^ den) :
    den ∣ 10 ^ fracDigitsCount den := by
  unfold fracDigitsCount
  cases hf : (List.range (den + 1)).find? (fun k => den ∣ 10 ^ k) with
  | some k => simpa using List.find?_some hf
  | none =>
    exfalso
    have hmem : den ∈ List.range (den + 1) := by simp
    have := List.find?_eq_none.mp hf den hmem
    simp [h] at this

theorem fracDigitsCount_pos (den : ℕ) (hden : 1 < den) (h : den ∣ 10 ^ den) :
    0 < fracDigitsCount den := by
  by_contra h0
  have h0' : fracDigitsCount den = 0 := by omega
  have hdvd := fracDigitsCount_dvd den h
  rw [h0'] at hdvd
  simp only [pow_zero, Nat.dvd_one] at hdvd
  omega

theorem mul_pow_ten_intCast (q : ℚ) (k : ℕ) (hdvd : q.den ∣ 10 ^ k) :
    q * 10 ^ k = ((q.num * ((10 ^ k / q.den : ℕ) : ℤ) : ℤ) : ℚ) := by
  have hden0 : (q.den : ℚ) ≠ 0 := by exact_mod_cast q.den_nz
  have hcancel : ((10 ^ k / q.den : ℕ) : ℚ) * (q.den : ℚ) = (10 ^ k : ℚ) := by
    rw [← Nat.cast_mul, Nat.div_mul_cancel hdvd]
    push_cast
    ring
  have hdiv : ((10 ^ k / q.den : ℕ) : ℚ) = (10 ^ k : ℚ) / (q.den : ℚ) := by
    rw [eq_div_iff hden0]
    exact hcancel
  calc q * 10 ^ k = (q.num : ℚ) / (q.den : ℚ) * 10 ^ k := by rw [Rat.num_div_den]
  _ = (q.num : ℚ) * ((10 ^ k : ℚ) / (q.den : ℚ)) := by ring
  _ = (q.num : ℚ) * ((10 ^ k / q.den : ℕ) : ℚ) := by rw [hdiv]
  _ = ((q.num * ((10 ^ k / q.den : ℕ) : ℤ) : ℤ) : ℚ) := by
    rw [Int.cast_mul, Int.cast_natCast]

theorem fract_scaled (a : ℚ) (k : ℕ) (hdvd : a.den ∣ 10 ^ k) :
    ((Int.fract a * 10 ^ k).num.toNat : ℚ) = Int.fract a * 10 ^ k ∧
    (Int.fract a * 10 ^ k).num.toNat < 10 ^ k := by
  have hfr0 : 0 ≤ Int.fract a := Int.fract_nonneg a
  have hfr1 : Int.fract a < 1 := Int.fract_lt_one a
  have hpow : (0 : ℚ) < 10 ^ k := by positivity
  have hint : Int.fract a * 10 ^ k =
      ((a.num * ((10 ^ k / a.den : ℕ) : ℤ) - ⌊a⌋ * 10 ^ k : ℤ) : ℚ) := by
    show (a - (⌊a⌋ : ℚ)) * 10 ^ k = _
    rw [sub_mul, mul_pow_ten_intCast a k hdvd]
    push_cast
    ring
  set z : ℤ := a.num * ((10 ^ k / a.den : ℕ) : ℤ) - ⌊a⌋ * 10 ^ k with hz
  have hz0 : 0 ≤ z := by
    have : (0 : ℚ) ≤ (z : ℚ) := by
      rw [← hint]
      positivity
    exact_mod_cast this
  have hnum : (Int.fract a * 10 ^ k).num = z := by
    rw [hint, Rat.num_intCast]
  have hcast : ((Int.fract a * 10 ^ k).num.toNat : ℚ) = Int.fract a * 10 ^ k := by
    rw [hnum, hint]
    exact_mod_cast congrArg (fun w : ℤ => (w : ℚ)) (Int.toNat_of_nonneg hz0)
  refine ⟨hcast, ?_⟩
  have hlt : Int.fract a * 10 ^ k < 10 ^ k := by
    nth_rewrite 2 [← one_mul ((10 : ℚ) ^ k)]
    exact mul_lt_mul_of_pos_right hfr1 hpow
  have : ((Int.fract a * 10 ^ k).num.toNat : ℚ) < ((10 ^ k : ℕ) : ℚ) := by
    rw [hcast]
    push_cast
    exact hlt
  exact_mod_cast this

theorem ratStr_eq (q : ℚ) :
    ratStr q =
      if |q| - ((|q|.floor.toNat : ℕ) : ℚ) = 0 then
        (if q < 0 then ['-'] else []) ++ natStr |q|.floor.toNat
      else
        (if q < 0 then ['-'] else []) ++ natStr |q|.floor.toNat ++ '.' ::
          padZeros (fracDigitsCount |q|.den)
            (natStr ((|q| - ((|q|.floor.toNat : ℕ) : ℚ)) *
              10 ^ fracDigitsCount |q|.den).num.toNat) := rfl

theorem parseUnsigned_natStr (n : ℕ) :
    parseUnsigned? (natStr n) = some (n : ℚ) := by
  rw [parseUnsigned_one (natStr n) (natStr n)
    (splitOnChar_no_sep '.' (natStr n)
      (fun c hc => isDigit_ne_dot c (natStr_mem_isDigit n c hc)))
    ⟨natStr_ne_nil n, allDigits_natStr n⟩]
  rw [digitsVal_natStr]

theorem parseDec_natStr_head (s : Str) (hne : s ≠ [])
    (hdig : ∀ c ∈ s, c.isDigit = true) :
    parseDec? s = parseUnsigned? s := by
  cases s with
  | nil => exact absurd rfl hne
  | cons c r => exact parseDec_of_digit_head c r (hdig c (List.mem_cons_self c r))

theorem den_eq_one_fract_zero (a : ℚ) (h : a.den = 1) : Int.fract a = 0 := by
  have hnum := (Rat.den_eq_one_iff a).mp h
  rw [← hnum]
  exact_mod_cast Int.fract_intCast a.num

theorem parseDec_ratStr (q : ℚ) (hq : DecFriendly q) : parseDec? (ratStr q) = some q := by
  have ha : 0 ≤ |q| := abs_nonneg q
  have haden : |q|.den = q.den := by
    rcases le_or_lt 0 q with h | h
    · rw [abs_of_nonneg h]
    · rw [abs_of_neg h, Rat.neg_den]
  have hadec : |q|.den ∣ 10 ^ |q|.den := by
    rw [haden]
    exact hq
  have hfl0 : 0 ≤ ⌊|q|⌋ := Int.floor_nonneg.mpr ha
  have hi : ((|q|.floor.toNat : ℕ) : ℚ) = ((⌊|q|⌋ : ℤ) : ℚ) := by
    exact_mod_cast congrArg (fun z : ℤ => (z : ℚ)) (Int.toNat_of_nonneg hfl0)
  have hfr_def : |q| - ((|q|.floor.toNat : ℕ) : ℚ) = Int.fract |q| := by
    rw [hi]
    rfl
  rw [ratStr_eq]
  by_cases hfr : |q| - ((|q|.floor.toNat : ℕ) : ℚ) = 0
  · rw [if_pos hfr]
    have hfr0 : Int.fract |q| = 0 := by
      rw [← hfr_def]
      exact hfr
    have hia : ((|q|.floor.toNat : ℕ) : ℚ) = |q| := by
      rw [hi]
      have hadd := Int.floor_add_fract |q|
      rw [hfr0, add_zero] at hadd
      exact hadd
    by_cases hneg : q < 0
    · rw [if_pos hneg]
      have hcons : (['-'] ++ natStr |q|.floor.toNat : Str) =
          '-' :: natStr |q|.floor.toNat := rfl
      rw [hcons, parseDec_neg_head, parseUnsigned_natStr]
      have hmap : (some ((|q|.floor.toNat : ℕ) : ℚ)).map (fun x => -x) =
          some (-((|q|.floor.toNat : ℕ) : ℚ)) := rfl
      rw [hmap, hia, abs_of_neg hneg, neg_neg]
    · rw [if_neg hneg, List.nil_append]
      rw [parseDec_natStr_head _ (natStr_ne_nil _) (natStr_mem_isDigit _),
        parseUnsigned_natStr, hia, abs_of_nonneg (le_of_not_lt hneg)]
  · rw [if_neg hfr, hfr_def]
    have hfrne : Int.fract |q| ≠ 0 := by
      rw [← hfr_def]
      exact hfr
    have hden1 : |q|.den ≠ 1 := fun h => hfrne (den_eq_one_fract_zero _ h)
    have hdenpos : |q|.den ≠ 0 := Rat.den_nz _
    have hk1 : 1 ≤ fracDigitsCount |q|.den :=
      fracDigitsCount_pos _ (by omega) hadec
    have hkdvd : |q|.den ∣ 10 ^ fracDigitsCount |q|.den := fracDigitsCount_dvd _ hadec
    obtain ⟨hmcast, hmlt⟩ := fract_scaled |q| (fracDigitsCount |q|.den) hkdvd
    have hpow0 : ((10 : ℚ) ^ fracDigitsCount |q|.den) ≠ 0 := by positivity
    have hfp_digits : ∀ c ∈ padZeros (fracDigitsCount |q|.den)
        (natStr (Int.fract |q| * 10 ^ fracDigitsCount |q|.den).num.toNat),
        c.isDigit = true :=
      padZeros_mem_isDigit _ _ (natStr_mem_isDigit _)
    have hsplit : splitOnChar '.'
        (natStr |q|.floor.toNat ++ '.' :: padZeros (fracDigitsCount |q|.den)
          (natStr (Int.fract |q| * 10 ^ fracDigitsCount |q|.den).num.toNat)) =
        [natStr |q|.floor.toNat,
         padZeros (fracDigitsCount |q|.den)
          (natStr (Int.fract |q| * 10 ^ fracDigitsCount |q|.den).num.toNat)] := by
      rw [splitOnChar_sep_append '.' _ _
        (fun c hc => isDigit_ne_dot c (natStr_mem_isDigit _ c hc))]
      rw [splitOnChar_no_sep '.' _ (fun c hc => isDigit_ne_dot c (hfp_digits c hc))]
    have hpadlen : (padZeros (fracDigitsCount |q|.den)
        (natStr (Int.fract |q| * 10 ^ fracDigitsCount |q|.den).num.toNat)).length =
        fracDigitsCount |q|.den :=
      padZeros_length _ _ (natStr_length_le _ _ hk1 hmlt)
    have hXparse : parseUnsigned?
        (natStr |q|.floor.toNat ++ '.' :: padZeros (fracDigitsCount |q|.den)
          (natStr (Int.fract |q| * 10 ^ fracDigitsCount |q|.den).num.toNat)) =
        some |q| := by
      rw [parseUnsigned_two _ _ _ hsplit
        ⟨Or.inl (natStr_ne_nil _), allDigits_natStr _, by
          unfold allDigits
          rw [List.all_eq_true]
          exact hfp_digits⟩]
      rw [digitsVal_natStr, digitsVal_padZeros, digitsVal_natStr, hpadlen, hmcast, hi]
      congr 1
      rw [mul_div_assoc, div_self hpow0, mul_one]
      exact Int.floor_add_fract |q|
    by_cases hneg : q < 0
    · rw [if_pos hneg]
      have hcons : (['-'] ++ (natStr |q|.floor.toNat ++ '.' ::
          padZeros (fracDigitsCount |q|.den)
            (natStr (Int.fract |q| * 10 ^ fracDigitsCount |q|.den).num.toNat)) : Str) =
          '-' :: (natStr |q|.floor.toNat ++ '.' ::
            padZeros (fracDigitsCount |q|.den)
              (natStr (Int.fract |q| * 10 ^ fracDigitsCount |q|.den).num.toNat)) := rfl
      rw [List.append_assoc, hcons, parseDec_neg_head, hXparse]
      have hmap : (some |q|).map (fun x => -x) = some (-|q|) := rfl
      rw [hmap, abs_of_neg hneg, neg_neg]
    · rw [if_neg hneg, List.nil_append]
      cases hns : natStr |q|.floor.toNat with
      | nil => exact absurd hns (natStr_ne_nil _)
      | cons c r =>
        rw [List.cons_append]
        rw [parseDec_of_digit_head c _
          (natStr_mem_isDigit _ c (by rw [hns]; exact List.mem_cons_self c r))]
        rw [← List.cons_append, ← hns, hXparse, abs_of_nonneg (le_of_not_lt hneg)]

theorem ratStr_chars (q : ℚ) (c : Char) (hc : c ∈ ratStr q) :
    c.isDigit = true ∨ c = '-' ∨ c = '.' := by
  rw [ratStr_eq] at hc
  have hsgn : ∀ c', c' ∈ (if q < 0 then (['-'] : Str) else []) → c' = '-' := by
    intro c' hc'
    by_cases hneg : q < 0
    · rw [if_pos hneg] at hc'
      exact List.mem_singleton.mp hc'
    · rw [if_neg hneg] at hc'
      exact absurd hc' (List.not_mem_nil c')
  by_cases hfr : |q| - ((|q|.floor.toNat : ℕ) : ℚ) = 0
  · rw [if_pos hfr] at hc
    rcases List.mem_append.mp hc with h | h
    · exact Or.inr (Or.inl (hsgn c h))
    · exact Or.inl (natStr_mem_isDigit _ c h)
  · rw [if_neg hfr] at hc
    rcases List.mem_append.mp hc with h | h
    · rcases List.mem_append.mp h with h' | h'
      · exact Or.inr (Or.inl (hsgn c h'))
      · exact Or.inl (natStr_mem_isDigit _ c h')
    · rcases List.mem_cons.mp h with h' | h'
      · exact Or.inr (Or.inr h')
      · exact Or.inl (padZeros_mem_isDigit _ _ (natStr_mem_isDigit _) c h')

theorem ratStr_no_ws (q : ℚ) : ∀ c ∈ ratStr q, isWs c = false := by
  intro c hc
  rcases ratStr_chars q c hc with h | h | h
  · exact isDigit_not_ws c h
  · rw [h]
    decide
  · rw [h]
    decide

theorem ratStr_no_comma (q : ℚ) : ∀ c ∈ ratStr q, c ≠ ',' := by
  intro c hc
  rcases ratStr_chars q c hc with h | h | h
  · exact isDigit_ne_comma c h
  · rw [h]
    decide
  · rw [h]
    decide

theorem ratStr_ne_nil (q : ℚ) : ratStr q ≠ [] := by
  rw [ratStr_eq]
  by_cases hfr : |q| - ((|q|.floor.toNat : ℕ) : ℚ) = 0
  · rw [if_pos hfr]
    intro h
    exact natStr_ne_nil _ (List.append_eq_nil.mp h).2
  · rw [if_neg hfr]
    intro h
    have h1 := (List.append_eq_nil.mp h).1
    exact natStr_ne_nil _ (List.append_eq_nil.mp h1).2

theorem joinCommaSpace_cons_cons (a b : Str) (rest : List Str) :
    joinCommaSpace (a :: b :: rest) = a ++ ',' :: ' ' :: joinCommaSpace (b :: rest) := rfl

theorem split_join_ratStr (x : ℚ) (xs : List ℚ) :
    splitOnChar ',' (joinCommaSpace ((x :: xs).map ratStr)) =
      ratStr x :: xs.map (fun y => ' ' :: ratStr y) := by
  induction xs generalizing x with
  | nil => exact splitOnChar_no_sep ',' _ (ratStr_no_comma x)
  | cons y ys ih =>
    show splitOnChar ',' (joinCommaSpace (ratStr x :: ratStr y :: ys.map ratStr)) =
      ratStr x :: (' ' :: ratStr y) :: ys.map (fun z => ' ' :: ratStr z)
    rw [joinCommaSpace_cons_cons, splitOnChar_sep_append ',' _ _ (ratStr_no_comma x)]
    congr 1
    have ihy : splitOnChar ',' (joinCommaSpace (ratStr y :: ys.map ratStr)) =
        ratStr y :: ys.map (fun z => ' ' :: ratStr z) := ih y
    rw [splitOnChar_cons_eq, ihy]
    simp only []
    rw [if_neg (by decide)]

theorem parseCells_ratStr_tail (xs : List ℚ) (h : ∀ y ∈ xs, DecFriendly y) :
    parseCells (xs.map fun y => ' ' :: ratStr y) = some xs := by
  induction xs with
  | nil => rfl
  | cons y ys ih =>
    rw [List.map_cons]
    unfold parseCells
    rw [trimStr_space_cons _ (ratStr_no_ws y),
      parseDec_ratStr y (h y (List.mem_cons_self y ys)),
      ih (fun z hz => h z (List.mem_cons_of_mem y hz))]

theorem parseCells_render (nums : List ℚ) (hnums : nums ≠ [])
    (h : ∀ x ∈ nums, DecFriendly x) :
    parseCells (splitOnChar ',' (joinCommaSpace (nums.map ratStr))) = some nums := by
  cases nums with
  | nil => exact absurd rfl hnums
  | cons x xs =>
    rw [split_join_ratStr]
    unfold parseCells
    rw [trimStr_of_no_ws _ (ratStr_no_ws x),
      parseDec_ratStr x (h x (List.mem_cons_self x xs)),
      parseCells_ratStr_tail xs (fun z hz => h z (List.mem_cons_of_mem x hz))]

theorem joinCommaSpace_map_ne_nil (x : ℚ) (xs : List ℚ) :
    joinCommaSpace ((x :: xs).map ratStr) ≠ [] := by
  cases xs with
  | nil => exact ratStr_ne_nil x
  | cons y ys =>
    rw [List.map_cons, List.map_cons, joinCommaSpace_cons_cons]
    intro hcontra
    exact ratStr_ne_nil x (List.append_eq_nil.mp hcontra).1

theorem parseNumList_renderNumbersCell (nums : List ℚ)
    (h : ∀ x ∈ nums, DecFriendly x) :
    parseNumList? (renderNumbersCell nums) = some nums := by
  have hred : parseNumList? ('[' :: (joinCommaSpace (nums.map ratStr) ++ [']'])) =
      if joinCommaSpace (nums.map ratStr) ++ [']'] ≠ [] ∧
          (joinCommaSpace (nums.map ratStr) ++ [']']).getLast? = some ']' then
        (if (joinCommaSpace (nums.map ratStr) ++ [']']).dropLast = [] then some []
         else parseCells (splitOnChar ','
            ((joinCommaSpace (nums.map ratStr) ++ [']']).dropLast)))
      else none := rfl
  have hcell : renderNumbersCell nums =
      '[' :: (joinCommaSpace (nums.map ratStr) ++ [']']) := rfl
  rw [hcell, hred,
    if_pos ⟨by simp, List.getLast?_concat _⟩, List.dropLast_concat]
  cases hn : nums with
  | nil => decide
  | cons x xs =>
    rw [if_neg (by rw [hn] at *; exact joinCommaSpace_map_ne_nil x xs)]
    rw [← hn]
    exact parseCells_render nums (by rw [hn]; simp) h

/-- C8: a `Table` section with a numeric column, re-rendered through the
auxiliary-fragment extractor `extract_table_data_yaml`, yields a bracketed
numeric list whose re-parse recovers the same values in the same order.  The
rendered cell for the column appears verbatim in the extracted fragment, and
parsing that cell returns exactly the original column.  Numbers are modelled
as rationals with finite decimal expansion (`DecFriendly`), which is every
`f64` value. -/
theorem claim_C8_table_round_trip (nums : List ℚ)
    (h : ∀ x ∈ nums, DecFriendly x) (spec : TestSpec) (s cn : Str)
    (hsec : (s, Sect.Table [(cn, TableColumn.Numbers nums)]) ∈ spec.sections)
    (hres : isReservedName s = false)
    (hassum : s ≠ "assumptions".toList) :
    (∃ pre post,
      extract_table_data_yaml spec = pre ++ renderNumbersCell nums ++ post) ∧
    parseNumList? (renderNumbersCell nums) = some nums := by
  constructor
  · obtain ⟨pre, post, hfrag⟩ := extract_table_infix spec s
      [(cn, TableColumn.Numbers nums)] hsec hres hassum
    have hsection : renderTableSection s [(cn, TableColumn.Numbers nums)] =
        (s ++ ':' :: '\n' :: ' ' :: ' ' :: (cn ++ [':', ' '])) ++
          renderNumbersCell nums ++ ('\n' :: []) := by
      unfold renderTableSection renderColumn
      simp [List.append_assoc]
    refine ⟨pre ++ (s ++ ':' :: '\n' :: ' ' :: ' ' :: (cn ++ [':', ' '])),
      ('\n' :: []) ++ post, ?_⟩
    rw [hfrag, hsection]
    simp [List.append_assoc]
  · exact parseNumList_renderNumbersCell nums h

theorem claim_C8_witness :
    (∃ pre post,
      extract_table_data_yaml ⟨"1.0.0".toList,
        [("agg_data".toList, Sect.Table
          [("values".toList, TableColumn.Numbers [10, 50, 30, 70])])]⟩
        = pre ++ renderNumbersCell [10, 50, 30, 70] ++ post) ∧
    parseNumList? (renderNumbersCell [10, 50, 30, 70]) =
      some [10, 50, 30, 70] := by
  have hdf : ∀ x ∈ ([10, 50, 30, 70] : List ℚ), DecFriendly x := by
    intro x hx
    have hden : x.den = 1 := by
      simp only [List.mem_cons, List.not_mem_nil, or_false] at hx
      rcases hx with rfl | rfl | rfl | rfl
      · exact Rat.den_ofNat 10
      · exact Rat.den_ofNat 50
      · exact Rat.den_ofNat 30
      · exact Rat.den_ofNat 70
    unfold DecFriendly
    rw [hden]
    exact one_dvd _
  exact claim_C8_table_round_trip [10, 50, 30, 70] hdf
    ⟨"1.0.0".toList,
      [("agg_data".toList, Sect.Table
        [("values".toList, TableColumn.Numbers [10, 50, 30, 70])])]⟩
    "agg_data".toList "values".toList (by simp) (by decide) (by decide)

end ForgeE2E
